import Mathlib

/-!
# Verification of the multi-URL database connection manager

Shallow embedding of the two `DatabaseManager` implementations of the
repository:

* `src/sqla/manager/manager.py` — engines kept in a list indexed by
  position, a current-index pointer advanced modulo the URL count, a
  `max_attempts` retry budget (default 3) and a wall-clock timeout
  (default 10 seconds) checked after each failed attempt;
* `src/sqlax/manager/manager.py` — engines kept in a dict keyed by URL,
  a current-URL pointer, and a fixed budget of 3 rounds where each round
  iterates the whole URL list.

The driver primitive `create_engine(url); engine.connect()` is modelled by
a connectability oracle `Conn : Url → Bool` supplied per call; each probe
is recorded in a `probeLog` so that probe counts are observable.  Wall-clock
time in the `sqla` variant is modelled by an arbitrary function
`elapsed : Nat → Nat` giving the elapsed time observed at the k-th
timeout check of the call.  Python exceptions are modelled by `PyErr`;
an operation returns its `Except` result together with the post-state
(mutations performed before a raise persist, as they do on the Python
object).
-/

abbrev Url := String

/-- An engine handle: the URL it was created for, plus a creation serial
number so that distinct creations are distinguishable. -/
structure Engine where
  id : Nat
  url : Url
deriving DecidableEq, Repr

/-- Connectability oracle for one call: `conn url = true` iff
`create_engine(url).connect()` would succeed right now. -/
abbrev Conn := Url → Bool

/-- Python exceptions raised by the manager code. -/
inductive PyErr where
  | assertionError (msg : String)
  | runtimeError (msg : String)
  | initializeDatabaseException (msg : String)
  | typeError (msg : String)
  | keyError (key : String)
deriving DecidableEq, Repr

namespace Sqla

/-- State of `sqla.manager.DatabaseManager`: `engines` mirrors
`self._engines` (a list of `Engine | None` of the same length as `urls`),
`currentEngineIndex` mirrors `self._current_engine_index`,
`sessionFactory` holds the engine the cached `sessionmaker` is bound to,
`reflectedTables` mirrors the lazily created `self.reflected_tables`
dict (`none` while the attribute does not exist).  `nextId` feeds engine
serial numbers and `probeLog` records every connection probe. -/
structure State where
  urls : List Url
  timeoutSeconds : Nat
  engines : List (Option Engine)
  currentEngineIndex : Nat
  sessionFactory : Option Engine
  reflectedTables : Option (List (String × Nat))
  nextId : Nat
  probeLog : List Url
deriving DecidableEq, Repr

/-- `DatabaseManager.__init__(urls, timeout_seconds)`: stores the fields,
then `assert self.urls, "Urls must not be empty"`. -/
def init (urls : List Url) (timeoutSeconds : Nat) : Except PyErr State :=
  if urls.isEmpty then
    .error (.assertionError "Urls must not be empty")
  else
    .ok { urls := urls
          timeoutSeconds := timeoutSeconds
          engines := List.replicate urls.length none
          currentEngineIndex := 0
          sessionFactory := none
          reflectedTables := none
          nextId := 0
          probeLog := [] }

/-- `_create_engine_from_url(url)` inlined at its call site: probe `url`,
record the probe, return the new handle on success and `None` on
`SQLAlchemyError`. -/
def probe (conn : Conn) (s : State) (url : Url) : Option Engine × State :=
  (if conn url then some ⟨s.nextId, url⟩ else none,
   { s with nextId := s.nextId + 1, probeLog := s.probeLog ++ [url] })

/-- One iteration of the `for _ in range(max_attempts)` body of
`_get_or_create_engine`, up to the advance of the index: if the slot at
the current index holds an engine (is truthy), return it; otherwise it is
`None`, so probe its URL, store the result, and return the stored engine
if the probe succeeded; otherwise advance the index modulo `len(urls)`. -/
def step (conn : Conn) (s : State) : Option Engine × State :=
  let i := s.currentEngineIndex
  match s.engines.getD i none with
  | some e => (some e, s)
  | none =>
    let (e, s') := probe conn s (s.urls.getD i "")
    let s1 := { s' with engines := s'.engines.set i e }
    match s1.engines.getD i none with
    | some e' => (some e', s1)
    | none => (none, { s1 with currentEngineIndex := (i + 1) % s1.urls.length })

/-- The acquisition failure message of `_get_or_create_engine`. -/
def connFailMsg : String :=
  "Could not establish a connection to any database within the specified time limit"

/-- The retry loop of `_get_or_create_engine`: `fuel` is the number of
remaining iterations of `range(max_attempts)`, `k` counts the timeout
checks already performed, `elapsed k` is the `time.monotonic() - start_time`
value observed at the k-th check.  After a failed attempt the loop breaks
(and falls through to the `raise`) when the elapsed time exceeds
`timeout_seconds`. -/
def getOrCreateLoop (conn : Conn) (elapsed : Nat → Nat) :
    Nat → Nat → State → Except PyErr Engine × State
  | 0, _, s => (.error (.runtimeError connFailMsg), s)
  | fuel + 1, k, s =>
    match step conn s with
    | (some e, s') => (.ok e, s')
    | (none, s') =>
      if elapsed k > s'.timeoutSeconds then
        (.error (.runtimeError connFailMsg), s')
      else
        getOrCreateLoop conn elapsed fuel (k + 1) s'

/-- `_get_or_create_engine()` with the default `max_attempts=3`, as every
caller in the class invokes it. -/
def getOrCreate (conn : Conn) (elapsed : Nat → Nat) (s : State) :
    Except PyErr Engine × State :=
  getOrCreateLoop conn elapsed 3 0 s

/-- `init_session_factory()`: run acquisition and bind the session
factory to the returned engine (`sessionmaker(bind=engine)` is modelled
by remembering the bound engine). -/
def initSessionFactory (conn : Conn) (elapsed : Nat → Nat) (s : State) :
    Except PyErr Unit × State :=
  match getOrCreate conn elapsed s with
  | (.ok e, s') => (.ok (), { s' with sessionFactory := some e })
  | (.error err, s') => (.error err, s')

/-- `get_new_session()`: build the factory if absent, then return
`self._session_factory()` — a session bound to the factory's engine.  A
session is modelled by the engine it is bound to. -/
def getNewSession (conn : Conn) (elapsed : Nat → Nat) (s : State) :
    Except PyErr Engine × State :=
  match s.sessionFactory with
  | some e => (.ok e, s)
  | none =>
    match initSessionFactory conn elapsed s with
    | (.error err, s') => (.error err, s')
    | (.ok _, s') =>
      match s'.sessionFactory with
      | some e => (.ok e, s')
      | none => (.error (.typeError "NoneType object is not callable"), s')

/-- `get_engine()`: return the cached engine of the current index if
truthy; otherwise run `_get_or_create_engine()` and return
`self._engines[self._current_engine_index] or None`. -/
def getEngine (conn : Conn) (elapsed : Nat → Nat) (s : State) :
    Except PyErr (Option Engine) × State :=
  match s.engines.getD s.currentEngineIndex none with
  | some e => (.ok (some e), s)
  | none =>
    match getOrCreate conn elapsed s with
    | (.error err, s') => (.error err, s')
    | (.ok _, s') => (.ok (s'.engines.getD s'.currentEngineIndex none), s')

/-- The message of the dead `engine is None` branch of `reflect_database`. -/
def reflectFailMsg : String :=
  "Cannot reflect database because no valid connection exists."

/-- `reflect_database()`: obtain an engine via `get_engine()`, raise if it
is `None`, otherwise reflect the schema (`schema e` is the table list the
reflection primitive reports for engine `e`) into `self.reflected_tables`. -/
def reflectDatabase (conn : Conn) (elapsed : Nat → Nat)
    (schema : Engine → List (String × Nat)) (s : State) :
    Except PyErr Unit × State :=
  match getEngine conn elapsed s with
  | (.error err, s') => (.error err, s')
  | (.ok none, s') => (.error (.runtimeError reflectFailMsg), s')
  | (.ok (some e), s') => (.ok (), { s' with reflectedTables := some (schema e) })

/-- `get_reflected_table(name)`: the cached metadata if the attribute
exists and holds the name, `None` otherwise. -/
def getReflectedTable (s : State) (name : String) : Option Nat :=
  match s.reflectedTables with
  | some tables => tables.lookup name
  | none => none

end Sqla

namespace Sqlax

/-- The Python dict `self._engines` of `sqlax.manager.DatabaseManager`:
an association list from URL to stored value (the stored value is
`Engine | None`, since failed probes store `None` under the key). -/
abbrev EngineDict := List (Url × Option Engine)

/-- `d.get(k)`: `None` both when the key is absent and when it is stored
with value `None`. -/
def dictGet (d : EngineDict) (k : Url) : Option Engine :=
  match d.lookup k with
  | some v => v
  | none => none

/-- `d[k] = v`: replace the value at the first occurrence of `k`, or
append the binding when `k` is absent (Python dict insertion order). -/
def dictSet : EngineDict → Url → Option Engine → EngineDict
  | [], k, v => [(k, v)]
  | (k', v') :: rest, k, v =>
    if k' = k then (k, v) :: rest else (k', v') :: dictSet rest k v

/-- State of `sqlax.manager.DatabaseManager`: `engines` mirrors the
`self._engines` dict, `currentEngineIndexUrl` mirrors
`self._current_engine_index_url` (initially the empty string),
`sessionFactory` holds the engine the cached `sessionmaker` is bound to,
`reflectedTables` mirrors the lazily created `self._reflected_tables`. -/
structure State where
  urls : List Url
  engines : EngineDict
  currentEngineIndexUrl : Url
  sessionFactory : Option Engine
  reflectedTables : Option (List (String × Nat))
  nextId : Nat
  probeLog : List Url
deriving DecidableEq, Repr

/-- `DatabaseManager.__init__(urls)`: store the fields, then
`assert self.urls, "Urls must not be empty"`. -/
def init (urls : List Url) : Except PyErr State :=
  if urls.isEmpty then
    .error (.assertionError "Urls must not be empty")
  else
    .ok { urls := urls
          engines := []
          currentEngineIndexUrl := ""
          sessionFactory := none
          reflectedTables := none
          nextId := 0
          probeLog := [] }

/-- The `_EXC_MSG` constant. -/
def excMsg : String := "No valid connection exists"

/-- `create_engine_from_url(url)`: probe `url` and record the probe;
return the new handle on success, `None` on `SQLAlchemyError`. -/
def probe (conn : Conn) (s : State) (url : Url) : Option Engine × State :=
  (if conn url then some ⟨s.nextId, url⟩ else none,
   { s with nextId := s.nextId + 1, probeLog := s.probeLog ++ [url] })

/-- The inner `for url in self.urls` loop of `_get_or_create_engine`:
mark each visited URL as the current selection; if the URL's dict entry
holds an engine (is truthy), return it; otherwise the entry reads as
`None`, so probe the URL, store the result, and return the stored engine
if the probe succeeded; otherwise continue with the next URL. -/
def round (conn : Conn) : List Url → State → Option Engine × State
  | [], s => (none, s)
  | url :: rest, s =>
    let s0 := { s with currentEngineIndexUrl := url }
    match dictGet s0.engines url with
    | some e => (some e, s0)
    | none =>
      let (e, s') := probe conn s0 url
      let s1 := { s' with engines := dictSet s'.engines url e }
      match dictGet s1.engines url with
      | some e' => (some e', s1)
      | none => round conn rest s1

/-- The outer `for _ in range(retry_count)` loop of
`_get_or_create_engine`: run up to `fuel` rounds over the whole URL list,
then raise `InitializeDatabaseException(_EXC_MSG)`. -/
def getOrCreateLoop (conn : Conn) : Nat → State → Except PyErr Engine × State
  | 0, s => (.error (.initializeDatabaseException excMsg), s)
  | fuel + 1, s =>
    match round conn s.urls s with
    | (some e, s') => (.ok e, s')
    | (none, s') => getOrCreateLoop conn fuel s'

/-- `_get_or_create_engine()` with its fixed `retry_count = 3`. -/
def getOrCreate (conn : Conn) (s : State) : Except PyErr Engine × State :=
  getOrCreateLoop conn 3 s

/-- `init_session_factory()`: run acquisition and bind the session
factory to the returned engine. -/
def initSessionFactory (conn : Conn) (s : State) : Except PyErr Unit × State :=
  match getOrCreate conn s with
  | (.ok e, s') => (.ok (), { s' with sessionFactory := some e })
  | (.error err, s') => (.error err, s')

/-- `get_new_session()`: build the factory if absent, then return a
session bound to the factory's engine. -/
def getNewSession (conn : Conn) (s : State) : Except PyErr Engine × State :=
  match s.sessionFactory with
  | some e => (.ok e, s)
  | none =>
    match initSessionFactory conn s with
    | (.error err, s') => (.error err, s')
    | (.ok _, s') =>
      match s'.sessionFactory with
      | some e => (.ok e, s')
      | none => (.error (.typeError "NoneType object is not callable"), s')

/-- `get_engine()`: return the cached engine of the current URL if
truthy; otherwise run `_get_or_create_engine()` and return
`self._engines[self._current_engine_index_url] or None` (a bracket
access, which raises `KeyError` on an absent key). -/
def getEngine (conn : Conn) (s : State) : Except PyErr (Option Engine) × State :=
  match dictGet s.engines s.currentEngineIndexUrl with
  | some e => (.ok (some e), s)
  | none =>
    match getOrCreate conn s with
    | (.error err, s') => (.error err, s')
    | (.ok _, s') =>
      match s'.engines.lookup s'.currentEngineIndexUrl with
      | none => (.error (.keyError s'.currentEngineIndexUrl), s')
      | some v => (.ok v, s')

/-- `reflect_database()`: obtain an engine via `get_engine()`, raise
`InitializeDatabaseException(_EXC_MSG)` if it is `None`, otherwise
reflect the schema into `self._reflected_tables`. -/
def reflectDatabase (conn : Conn) (schema : Engine → List (String × Nat))
    (s : State) : Except PyErr Unit × State :=
  match getEngine conn s with
  | (.error err, s') => (.error err, s')
  | (.ok none, s') => (.error (.initializeDatabaseException excMsg), s')
  | (.ok (some e), s') => (.ok (), { s' with reflectedTables := some (schema e) })

/-- `get_reflected_table(name)`: the cached metadata if the attribute
exists and holds the name, `None` otherwise. -/
def getReflectedTable (s : State) (name : String) : Option Nat :=
  match s.reflectedTables with
  | some tables => tables.lookup name
  | none => none

end Sqlax

/-! ## Basic lemmas about the `sqla` manager -/

namespace Sqla

theorem step_cached (conn : Conn) (s : State) (e : Engine)
    (h : s.engines.getD s.currentEngineIndex none = some e) :
    step conn s = (some e, s) := by
  unfold step
  simp only []
  rw [h]

theorem step_some (conn : Conn) (s : State) (e : Engine) (s' : State)
    (h : step conn s = (some e, s')) :
    s'.currentEngineIndex = s.currentEngineIndex ∧
    s'.engines.getD s'.currentEngineIndex none = some e ∧
    s'.urls = s.urls ∧ s'.timeoutSeconds = s.timeoutSeconds ∧
    s'.sessionFactory = s.sessionFactory ∧
    s'.reflectedTables = s.reflectedTables := by
  unfold step probe at h
  simp only [] at h
  split at h
  · rename_i e' heq
    rw [Prod.mk.injEq] at h
    obtain ⟨h1, rfl⟩ := h
    injection h1 with h1
    subst h1
    simp_all
  · rename_i heq
    split at h
    · rename_i e' heq2
      rw [Prod.mk.injEq] at h
      obtain ⟨h1, rfl⟩ := h
      injection h1 with h1
      subst h1
      simp_all
    · rw [Prod.mk.injEq] at h
      exact Option.noConfusion h.1

theorem step_none (conn : Conn) (s : State) (s' : State)
    (h : step conn s = (none, s')) :
    s'.currentEngineIndex = (s.currentEngineIndex + 1) % s.urls.length ∧
    s'.urls = s.urls ∧ s'.timeoutSeconds = s.timeoutSeconds ∧
    s'.sessionFactory = s.sessionFactory ∧
    s'.reflectedTables = s.reflectedTables := by
  unfold step probe at h
  simp only [] at h
  split at h
  · rename_i e' heq
    rw [Prod.mk.injEq] at h
    exact Option.noConfusion h.1
  · rename_i heq
    split at h
    · rw [Prod.mk.injEq] at h
      exact Option.noConfusion h.1
    · rename_i heq2
      rw [Prod.mk.injEq] at h
      obtain ⟨-, rfl⟩ := h
      simp_all

theorem getOrCreateLoop_ok (conn : Conn) (elapsed : Nat → Nat)
    (fuel k : Nat) (s : State) (e : Engine) (s' : State)
    (h : getOrCreateLoop conn elapsed fuel k s = (.ok e, s')) :
    s'.engines.getD s'.currentEngineIndex none = some e ∧
    s'.urls = s.urls ∧ s'.timeoutSeconds = s.timeoutSeconds ∧
    s'.sessionFactory = s.sessionFactory ∧
    s'.reflectedTables = s.reflectedTables := by
  induction fuel generalizing k s with
  | zero =>
    rw [getOrCreateLoop, Prod.mk.injEq] at h
    exact absurd h.1 (by simp)
  | succ fuel ih =>
    rw [getOrCreateLoop] at h
    split at h
    · rename_i e1 s1 heq
      rw [Prod.mk.injEq] at h
      obtain ⟨h1, rfl⟩ := h
      injection h1 with h1
      subst h1
      obtain ⟨ha, hb, hc, hd, he, hf⟩ := step_some _ _ _ _ heq
      simp_all
    · rename_i s1 heq
      split at h
      · rw [Prod.mk.injEq] at h
        exact absurd h.1 (by simp)
      · obtain ⟨h1, h2, h3, h4, h5⟩ := ih (k + 1) s1 h
        obtain ⟨ha, hb, hc, hd, he⟩ := step_none _ _ _ heq
        simp_all

theorem getOrCreateLoop_error (conn : Conn) (elapsed : Nat → Nat)
    (fuel k : Nat) (s : State) (err : PyErr) (s' : State)
    (h : getOrCreateLoop conn elapsed fuel k s = (.error err, s')) :
    err = .runtimeError connFailMsg ∧
    s'.urls = s.urls ∧ s'.timeoutSeconds = s.timeoutSeconds ∧
    s'.sessionFactory = s.sessionFactory ∧
    s'.reflectedTables = s.reflectedTables := by
  induction fuel generalizing k s with
  | zero =>
    rw [getOrCreateLoop, Prod.mk.injEq] at h
    obtain ⟨h1, rfl⟩ := h
    injection h1 with h1
    exact ⟨h1.symm, rfl, rfl, rfl, rfl⟩
  | succ fuel ih =>
    rw [getOrCreateLoop] at h
    split at h
    · rw [Prod.mk.injEq] at h
      exact absurd h.1 (by simp)
    · rename_i s1 heq
      obtain ⟨ha, hb, hc, hd, he⟩ := step_none _ _ _ heq
      split at h
      · rw [Prod.mk.injEq] at h
        obtain ⟨h1, rfl⟩ := h
        injection h1 with h1
        simp_all
      · obtain ⟨h1, h2, h3, h4, h5⟩ := ih (k + 1) s1 h
        simp_all

end Sqla

/-! ## Basic lemmas about the sqlax manager -/

namespace Sqlax

theorem dictGet_some_lookup (d : EngineDict) (k : Url) (e : Engine)
    (h : dictGet d k = some e) : d.lookup k = some (some e) := by
  unfold dictGet at h
  split at h
  · rename_i v heq
    rw [h] at heq
    exact heq
  · exact Option.noConfusion h

theorem round_some (conn : Conn) (urls : List Url) (s : State) (e : Engine)
    (s' : State) (h : round conn urls s = (some e, s')) :
    dictGet s'.engines s'.currentEngineIndexUrl = some e ∧
    s'.urls = s.urls ∧ s'.sessionFactory = s.sessionFactory ∧
    s'.reflectedTables = s.reflectedTables := by
  induction urls generalizing s with
  | nil =>
    rw [round, Prod.mk.injEq] at h
    exact Option.noConfusion h.1
  | cons url rest ih =>
    rw [round] at h
    unfold probe at h
    simp only [] at h
    split at h
    · rename_i e1 heq
      rw [Prod.mk.injEq] at h
      obtain ⟨h1, rfl⟩ := h
      injection h1 with h1
      subst h1
      simp_all
    · rename_i heq
      split at h
      · rename_i e1 heq2
        rw [Prod.mk.injEq] at h
        obtain ⟨h1, rfl⟩ := h
        injection h1 with h1
        subst h1
        simp_all
      · obtain ⟨h1, h2, h3, h4⟩ := ih _ h
        refine ⟨h1, ?_, ?_, ?_⟩ <;> simp_all

theorem round_none (conn : Conn) (urls : List Url) (s : State) (s' : State)
    (h : round conn urls s = (none, s')) :
    s'.urls = s.urls ∧ s'.sessionFactory = s.sessionFactory ∧
    s'.reflectedTables = s.reflectedTables := by
  induction urls generalizing s with
  | nil =>
    rw [round, Prod.mk.injEq] at h
    obtain ⟨-, rfl⟩ := h
    exact ⟨rfl, rfl, rfl⟩
  | cons url rest ih =>
    rw [round] at h
    unfold probe at h
    simp only [] at h
    split at h
    · rename_i e1 heq
      rw [Prod.mk.injEq] at h
      exact Option.noConfusion h.1
    · rename_i heq
      split at h
      · rw [Prod.mk.injEq] at h
        exact Option.noConfusion h.1
      · obtain ⟨h1, h2, h3⟩ := ih _ h
        refine ⟨?_, ?_, ?_⟩ <;> simp_all

theorem getOrCreateLoop_ok_x (conn : Conn) (fuel : Nat) (s : State) (e : Engine)
    (s' : State) (h : getOrCreateLoop conn fuel s = (.ok e, s')) :
    dictGet s'.engines s'.currentEngineIndexUrl = some e ∧
    s'.urls = s.urls ∧ s'.sessionFactory = s.sessionFactory ∧
    s'.reflectedTables = s.reflectedTables := by
  induction fuel generalizing s with
  | zero =>
    rw [getOrCreateLoop, Prod.mk.injEq] at h
    exact absurd h.1 (by simp)
  | succ fuel ih =>
    rw [getOrCreateLoop] at h
    split at h
    · rename_i e1 s1 heq
      rw [Prod.mk.injEq] at h
      obtain ⟨h1, rfl⟩ := h
      injection h1 with h1
      subst h1
      exact round_some _ _ _ _ _ heq
    · rename_i s1 heq
      obtain ⟨h1, h2, h3⟩ := round_none _ _ _ _ heq
      obtain ⟨g1, g2, g3, g4⟩ := ih _ h
      rw [h1] at g2
      rw [h2] at g3
      rw [h3] at g4
      exact ⟨g1, g2, g3, g4⟩

theorem getOrCreateLoop_error_x (conn : Conn) (fuel : Nat) (s : State)
    (err : PyErr) (s' : State)
    (h : getOrCreateLoop conn fuel s = (.error err, s')) :
    err = .initializeDatabaseException excMsg ∧
    s'.urls = s.urls ∧ s'.sessionFactory = s.sessionFactory ∧
    s'.reflectedTables = s.reflectedTables := by
  induction fuel generalizing s with
  | zero =>
    rw [getOrCreateLoop, Prod.mk.injEq] at h
    obtain ⟨h1, rfl⟩ := h
    injection h1 with h1
    exact ⟨h1.symm, rfl, rfl, rfl⟩
  | succ fuel ih =>
    rw [getOrCreateLoop] at h
    split at h
    · rw [Prod.mk.injEq] at h
      exact absurd h.1 (by simp)
    · rename_i s1 heq
      obtain ⟨h1, h2, h3⟩ := round_none _ _ _ _ heq
      obtain ⟨g1, g2, g3, g4⟩ := ih _ h
      rw [h1] at g2
      rw [h2] at g3
      rw [h3] at g4
      exact ⟨g1, g2, g3, g4⟩

end Sqlax

/-! ## `get_engine` case analyses -/

namespace Sqla

theorem getEngine_cases (conn : Conn) (elapsed : Nat → Nat) (s : State)
    (r : Except PyErr (Option Engine)) (s' : State)
    (h : getEngine conn elapsed s = (r, s')) :
    (∃ e, r = .ok (some e) ∧
      s'.engines.getD s'.currentEngineIndex none = some e) ∨
    r = .error (.runtimeError connFailMsg) := by
  unfold getEngine at h
  split at h
  · rename_i e heq
    rw [Prod.mk.injEq] at h
    obtain ⟨rfl, rfl⟩ := h
    exact Or.inl ⟨e, rfl, heq⟩
  · rename_i heq
    split at h
    · rename_i err s1 heq2
      rw [Prod.mk.injEq] at h
      obtain ⟨rfl, rfl⟩ := h
      exact Or.inr (by rw [(getOrCreateLoop_error _ _ _ _ _ _ _ heq2).1])
    · rename_i e1 s1 heq2
      rw [Prod.mk.injEq] at h
      obtain ⟨rfl, rfl⟩ := h
      obtain ⟨g1, -, -, -, -⟩ := getOrCreateLoop_ok _ _ _ _ _ _ _ heq2
      exact Or.inl ⟨e1, by rw [g1], g1⟩

theorem getEngine_ok_current (conn : Conn) (elapsed : Nat → Nat) (s : State)
    (e : Engine) (s' : State)
    (h : getEngine conn elapsed s = (.ok (some e), s')) :
    s'.engines.getD s'.currentEngineIndex none = some e := by
  rcases getEngine_cases conn elapsed s _ s' h with ⟨e1, he, hc⟩ | he
  · injection he with he
    injection he with he
    rw [he]
    exact hc
  · exact Except.noConfusion he

theorem getEngine_cached (conn : Conn) (elapsed : Nat → Nat) (s : State)
    (e : Engine) (h : s.engines.getD s.currentEngineIndex none = some e) :
    getEngine conn elapsed s = (.ok (some e), s) := by
  unfold getEngine
  rw [h]

end Sqla

namespace Sqlax

theorem getEngine_cases_x (conn : Conn) (s : State)
    (r : Except PyErr (Option Engine)) (s' : State)
    (h : getEngine conn s = (r, s')) :
    (∃ e, r = .ok (some e) ∧
      dictGet s'.engines s'.currentEngineIndexUrl = some e) ∨
    r = .error (.initializeDatabaseException excMsg) := by
  unfold getEngine at h
  split at h
  · rename_i e heq
    rw [Prod.mk.injEq] at h
    obtain ⟨rfl, rfl⟩ := h
    exact Or.inl ⟨e, rfl, heq⟩
  · rename_i heq
    split at h
    · rename_i err s1 heq2
      rw [Prod.mk.injEq] at h
      obtain ⟨rfl, rfl⟩ := h
      exact Or.inr (by rw [(getOrCreateLoop_error_x _ _ _ _ _ heq2).1])
    · rename_i e1 s1 heq2
      obtain ⟨g1, -, -, -⟩ := getOrCreateLoop_ok_x _ _ _ _ _ heq2
      rw [dictGet_some_lookup _ _ _ g1] at h
      rw [Prod.mk.injEq] at h
      obtain ⟨rfl, rfl⟩ := h
      exact Or.inl ⟨e1, rfl, g1⟩

theorem getEngine_ok_current_x (conn : Conn) (s : State)
    (e : Engine) (s' : State)
    (h : getEngine conn s = (.ok (some e), s')) :
    dictGet s'.engines s'.currentEngineIndexUrl = some e := by
  rcases getEngine_cases_x conn s _ s' h with ⟨e1, he, hc⟩ | he
  · injection he with he
    injection he with he
    rw [he]
    exact hc
  · exact Except.noConfusion he

theorem getEngine_cached_x (conn : Conn) (s : State)
    (e : Engine) (h : dictGet s.engines s.currentEngineIndexUrl = some e) :
    getEngine conn s = (.ok (some e), s) := by
  unfold getEngine
  rw [h]

end Sqlax

/-! ## Claim theorems -/

/-- C7: for every non-empty URL list, constructing a manager succeeds; for
the empty list, construction fails fast at construction time with the
configuration error (`assert self.urls, "Urls must not be empty"` raising
`AssertionError`, the code's realisation of `ConfigurationError`), in both
the `sqla` and the `sqlax` implementation. -/
theorem claim_C7 :
    (∀ urls t, urls ≠ [] → ∃ s, Sqla.init urls t = .ok s) ∧
    (∀ t, Sqla.init [] t =
      .error (.assertionError "Urls must not be empty")) ∧
    (∀ urls, urls ≠ [] → ∃ s, Sqlax.init urls = .ok s) ∧
    (Sqlax.init [] = .error (.assertionError "Urls must not be empty")) := by
  refine ⟨?_, ?_, ?_, ?_⟩
  · intro urls t h
    exact ⟨_, by unfold Sqla.init; rw [if_neg (by simpa using h)]⟩
  · intro t
    rfl
  · intro urls h
    exact ⟨_, by unfold Sqlax.init; rw [if_neg (by simpa using h)]⟩
  · rfl

/-- Witness for C7 at a concrete non-empty URL list. -/
theorem claim_C7_witness :
    ∃ s, Sqla.init ["postgresql://db1"] 10 = .ok s :=
  claim_C7.1 ["postgresql://db1"] 10 (by decide)

/-- C10: `get_engine` never returns `None` even though it is declared to
return `Engine | None`: for every manager state it either returns an
engine or raises the acquisition failure; the `or None` fallback always
yields the engine cached under the current selection (and in the `sqlax`
variant the bracket access in the fallback never raises `KeyError`). -/
theorem claim_C10 :
    (∀ conn elapsed s, (Sqla.getEngine conn elapsed s).1 ≠ .ok none) ∧
    (∀ conn s, (Sqlax.getEngine conn s).1 ≠ .ok none ∧
      ∀ u, (Sqlax.getEngine conn s).1 ≠ .error (.keyError u)) := by
  constructor
  · intro conn elapsed s
    rcases h : Sqla.getEngine conn elapsed s with ⟨r, s'⟩
    rcases Sqla.getEngine_cases conn elapsed s r s' h with ⟨e, rfl, -⟩ | rfl <;>
      simp
  · intro conn s
    rcases h : Sqlax.getEngine conn s with ⟨r, s'⟩
    constructor
    · rcases Sqlax.getEngine_cases_x conn s r s' h with ⟨e, rfl, -⟩ | rfl <;>
        simp
    · intro u
      rcases Sqlax.getEngine_cases_x conn s r s' h with ⟨e, rfl, -⟩ | rfl <;>
        simp

/-- C5: cache-hit idempotence of `get_engine`/`current_engine`: if a call
succeeded, an immediately following call returns the same cached engine
handle with a completely unchanged state — in particular the probe log is
unchanged, so the second call performs zero connection probes — whatever
the connectability of the world at the time of the second call. -/
theorem claim_C5 :
    (∀ conn elapsed conn' elapsed' s e s',
      Sqla.getEngine conn elapsed s = (.ok (some e), s') →
      Sqla.getEngine conn' elapsed' s' = (.ok (some e), s')) ∧
    (∀ conn conn' s e s',
      Sqlax.getEngine conn s = (.ok (some e), s') →
      Sqlax.getEngine conn' s' = (.ok (some e), s')) := by
  constructor
  · intro conn elapsed conn' elapsed' s e s' h
    exact Sqla.getEngine_cached conn' elapsed' s' e
      (Sqla.getEngine_ok_current _ _ _ _ _ h)
  · intro conn conn' s e s' h
    exact Sqlax.getEngine_cached_x conn' s' e
      (Sqlax.getEngine_ok_current_x _ _ _ _ h)

/-- Witness for C5: after a first `get_engine` call that probed and cached
`"db"`, a second call (with a world where nothing is connectable any more)
returns the cached handle and leaves the state untouched. -/
theorem claim_C5_witness :
    Sqla.getEngine (fun _ => false) (fun _ => 0)
      { urls := ["db"], timeoutSeconds := 10,
        engines := [some ⟨0, "db"⟩], currentEngineIndex := 0,
        sessionFactory := none, reflectedTables := none,
        nextId := 1, probeLog := ["db"] } =
    (.ok (some ⟨0, "db"⟩),
      { urls := ["db"], timeoutSeconds := 10,
        engines := [some ⟨0, "db"⟩], currentEngineIndex := 0,
        sessionFactory := none, reflectedTables := none,
        nextId := 1, probeLog := ["db"] }) :=
  claim_C5.1 (fun _ => true) (fun _ => 0) (fun _ => false) (fun _ => 0)
    { urls := ["db"], timeoutSeconds := 10,
      engines := [none], currentEngineIndex := 0,
      sessionFactory := none, reflectedTables := none,
      nextId := 0, probeLog := [] }
    ⟨0, "db"⟩
    { urls := ["db"], timeoutSeconds := 10,
      engines := [some ⟨0, "db"⟩], currentEngineIndex := 0,
      sessionFactory := none, reflectedTables := none,
      nextId := 1, probeLog := ["db"] }
    (by rfl)

/-- C9: `get_reflected_table` is a total lookup: after a successful
`reflect_database`, it returns exactly what the reflection primitive
reported for the acquired engine — the cached metadata for a reflected
name, a not-found `none` for an absent name — and before any reflection
(the state produced by the constructor) it returns `none`; being
`Option`-valued it never raises. -/
theorem claim_C9 :
    (∀ conn elapsed schema s s' name,
      Sqla.reflectDatabase conn elapsed schema s = (.ok (), s') →
      ∃ e, Sqla.getReflectedTable s' name = (schema e).lookup name) ∧
    (∀ urls t s name, Sqla.init urls t = .ok s →
      Sqla.getReflectedTable s name = none) ∧
    (∀ conn schema s s' name,
      Sqlax.reflectDatabase conn schema s = (.ok (), s') →
      ∃ e, Sqlax.getReflectedTable s' name = (schema e).lookup name) ∧
    (∀ urls s name, Sqlax.init urls = .ok s →
      Sqlax.getReflectedTable s name = none) := by
  refine ⟨?_, ?_, ?_, ?_⟩
  · intro conn elapsed schema s s' name h
    unfold Sqla.reflectDatabase at h
    split at h
    · rw [Prod.mk.injEq] at h
      exact absurd h.1 (by simp)
    · rw [Prod.mk.injEq] at h
      exact absurd h.1 (by simp)
    · rename_i e s1 heq
      rw [Prod.mk.injEq] at h
      obtain ⟨-, rfl⟩ := h
      exact ⟨e, by unfold Sqla.getReflectedTable; rfl⟩
  · intro urls t s name h
    unfold Sqla.init at h
    split at h
    · exact Except.noConfusion h
    · injection h with h
      subst h
      rfl
  · intro conn schema s s' name h
    unfold Sqlax.reflectDatabase at h
    split at h
    · rw [Prod.mk.injEq] at h
      exact absurd h.1 (by simp)
    · rw [Prod.mk.injEq] at h
      exact absurd h.1 (by simp)
    · rename_i e s1 heq
      rw [Prod.mk.injEq] at h
      obtain ⟨-, rfl⟩ := h
      exact ⟨e, by unfold Sqlax.getReflectedTable; rfl⟩
  · intro urls s name h
    unfold Sqlax.init at h
    split at h
    · exact Except.noConfusion h
    · injection h with h
      subst h
      rfl

/-- Witness for C9: reflecting a schema with tables `users` and `orders`
makes `get_reflected_table` return the cached metadata for `orders`. -/
theorem claim_C9_witness :
    ∃ e : Engine, Sqla.getReflectedTable
      { urls := ["db"], timeoutSeconds := 10,
        engines := [some ⟨0, "db"⟩], currentEngineIndex := 0,
        sessionFactory := none,
        reflectedTables := some [("users", 1), ("orders", 2)],
        nextId := 1, probeLog := ["db"] } "orders" =
      ((fun _ : Engine => [("users", 1), ("orders", 2)]) e).lookup "orders" :=
  claim_C9.1 (fun _ => true) (fun _ => 0)
    (fun _ => [("users", 1), ("orders", 2)])
    { urls := ["db"], timeoutSeconds := 10,
      engines := [none], currentEngineIndex := 0,
      sessionFactory := none, reflectedTables := none,
      nextId := 0, probeLog := [] }
    { urls := ["db"], timeoutSeconds := 10,
      engines := [some ⟨0, "db"⟩], currentEngineIndex := 0,
      sessionFactory := none,
      reflectedTables := some [("users", 1), ("orders", 2)],
      nextId := 1, probeLog := ["db"] }
    "orders" (by rfl)

/-! ## Engine-cache invariants (per-URL uniqueness, no caching of failures) -/

namespace Sqla

theorem getD_set_ne (l : List (Option Engine)) {i p : Nat} (x : Option Engine)
    (h : i ≠ p) : (l.set i x).getD p none = l.getD p none := by
  simp [List.getD_eq_getElem?_getD, List.getElem?_set_ne h]

theorem getD_set_none_self (l : List (Option Engine)) (i : Nat)
    (h : l.getD i none = none) : (l.set i none).getD i none = none := by
  simp [List.getD_eq_getElem?_getD, List.getElem?_set_self'] at h ⊢
  cases hx : l[i]? with
  | none => simp [hx]
  | some v => rw [hx] at h; simp at h; simp [hx, h]

theorem getD_replicate_none (n i : Nat) :
    (List.replicate n (none : Option Engine)).getD i none = none := by
  simp [List.getD_eq_getElem?_getD, List.getElem?_replicate]
  split <;> rfl

/-- Once a URL slot holds an engine handle, it still holds that same
handle after the transition from `s` to `s'` (idempotent creation: no
second engine is ever created for a slot). -/
def EnginePreserved (s s' : State) : Prop :=
  ∀ p e, s.engines.getD p none = some e → s'.engines.getD p none = some e

/-- A slot whose URL is not connectable and which holds no engine still
holds no engine after the transition from `s` to `s'` (a failed probe
caches nothing). -/
def NoFailCache (conn : Conn) (s s' : State) : Prop :=
  ∀ p, conn (s.urls.getD p "") = false → s.engines.getD p none = none →
    s'.engines.getD p none = none

/-- Both halves of the engine-cache invariant for one transition. -/
def CacheInv (conn : Conn) (s s' : State) : Prop :=
  EnginePreserved s s' ∧ NoFailCache conn s s'

theorem step_cacheInv (conn : Conn) (s : State) (o : Option Engine)
    (s' : State) (h : step conn s = (o, s')) : CacheInv conn s s' := by
  unfold step probe at h
  simp only [] at h
  constructor
  · intro p e hp
    split at h
    · rename_i e1 heq
      rw [Prod.mk.injEq] at h
      obtain ⟨-, rfl⟩ := h
      exact hp
    · rename_i heq
      have hi : s.currentEngineIndex ≠ p := fun hip => by
        rw [hip, hp] at heq
        exact Option.noConfusion heq
      split at h <;>
        (rw [Prod.mk.injEq] at h; obtain ⟨-, rfl⟩ := h;
         exact (getD_set_ne _ _ hi).trans hp)
  · intro p hconn hp
    split at h
    · rename_i e1 heq
      rw [Prod.mk.injEq] at h
      obtain ⟨-, rfl⟩ := h
      exact hp
    · rename_i heq
      by_cases hi : s.currentEngineIndex = p
      · subst hi
        have hval : (if conn (s.urls.getD s.currentEngineIndex "") = true
            then some (⟨s.nextId, s.urls.getD s.currentEngineIndex ""⟩ : Engine)
            else none) = none := by
          rw [hconn]
          simp
        split at h <;>
          (rw [Prod.mk.injEq] at h; obtain ⟨-, rfl⟩ := h;
           show (s.engines.set s.currentEngineIndex _).getD _ none = none;
           rw [hval];
           exact getD_set_none_self _ _ hp)
      · split at h <;>
          (rw [Prod.mk.injEq] at h; obtain ⟨-, rfl⟩ := h;
           exact (getD_set_ne _ _ hi).trans hp)

end Sqla

namespace Sqla

theorem cacheInv_refl (conn : Conn) (s : State) : CacheInv conn s s :=
  ⟨fun _ _ hp => hp, fun _ _ hp => hp⟩

theorem getOrCreateLoop_cacheInv (conn : Conn) (elapsed : Nat → Nat)
    (fuel k : Nat) (s : State) (r : Except PyErr Engine) (s' : State)
    (h : getOrCreateLoop conn elapsed fuel k s = (r, s')) :
    CacheInv conn s s' := by
  induction fuel generalizing k s with
  | zero =>
    rw [getOrCreateLoop, Prod.mk.injEq] at h
    obtain ⟨-, rfl⟩ := h
    exact cacheInv_refl conn s
  | succ fuel ih =>
    rw [getOrCreateLoop] at h
    split at h
    · rename_i e1 s1 heq
      rw [Prod.mk.injEq] at h
      obtain ⟨-, rfl⟩ := h
      exact step_cacheInv _ _ _ _ heq
    · rename_i s1 heq
      have hstep := step_cacheInv _ _ _ _ heq
      have hu := (step_none _ _ _ heq).2.1
      split at h
      · rw [Prod.mk.injEq] at h
        obtain ⟨-, rfl⟩ := h
        exact hstep
      · have hrec := ih (k + 1) s1 h
        exact ⟨fun p e hp => hrec.1 p e (hstep.1 p e hp),
               fun p hc hp => hrec.2 p (by rw [hu]; exact hc) (hstep.2 p hc hp)⟩

theorem initSessionFactory_cacheInv (conn : Conn) (elapsed : Nat → Nat)
    (s : State) : CacheInv conn s (initSessionFactory conn elapsed s).2 := by
  unfold initSessionFactory
  rcases h : getOrCreate conn elapsed s with ⟨r, s1⟩
  have := getOrCreateLoop_cacheInv conn elapsed 3 0 s r s1 h
  cases r <;> exact this

theorem getNewSession_cacheInv (conn : Conn) (elapsed : Nat → Nat)
    (s : State) : CacheInv conn s (getNewSession conn elapsed s).2 := by
  unfold getNewSession
  split
  · exact cacheInv_refl conn s
  · rcases h : initSessionFactory conn elapsed s with ⟨r, s1⟩
    have hinv : CacheInv conn s s1 := by
      have := initSessionFactory_cacheInv conn elapsed s
      rw [h] at this
      exact this
    cases r with
    | error err => exact hinv
    | ok u =>
      cases hsf : s1.sessionFactory with
      | none => simp only [hsf]; exact hinv
      | some e => simp only [hsf]; exact hinv

theorem getEngine_cacheInv (conn : Conn) (elapsed : Nat → Nat)
    (s : State) : CacheInv conn s (getEngine conn elapsed s).2 := by
  unfold getEngine
  split
  · exact cacheInv_refl conn s
  · rcases h : getOrCreate conn elapsed s with ⟨r, s1⟩
    have := getOrCreateLoop_cacheInv conn elapsed 3 0 s r s1 h
    cases r <;> exact this

theorem reflectDatabase_cacheInv (conn : Conn) (elapsed : Nat → Nat)
    (schema : Engine → List (String × Nat)) (s : State) :
    CacheInv conn s (reflectDatabase conn elapsed schema s).2 := by
  unfold reflectDatabase
  rcases h : getEngine conn elapsed s with ⟨r, s1⟩
  have hinv : CacheInv conn s s1 := by
    have := getEngine_cacheInv conn elapsed s
    rw [h] at this
    exact this
  rcases r with err | o
  · exact hinv
  · cases o <;> exact hinv

end Sqla

namespace Sqlax

theorem lookup_dictSet_eq (d : EngineDict) (k : Url) (v : Option Engine) :
    (dictSet d k v).lookup k = some v := by
  induction d with
  | nil => simp [dictSet]
  | cons kv rest ih =>
    rcases kv with ⟨k', v'⟩
    rw [dictSet]
    by_cases hk : k' = k
    · rw [if_pos hk]
      simp [List.lookup]
    · rw [if_neg hk]
      have hb : (k == k') = false :=
        beq_eq_false_iff_ne.mpr fun hkk => hk hkk.symm
      simp [List.lookup, hb, ih]

theorem lookup_dictSet_ne (d : EngineDict) (k k' : Url) (v : Option Engine)
    (h : k ≠ k') : (dictSet d k v).lookup k' = d.lookup k' := by
  have hb : (k' == k) = false :=
    beq_eq_false_iff_ne.mpr fun hkk => h hkk.symm
  induction d with
  | nil => simp [dictSet, List.lookup, hb]
  | cons kv rest ih =>
    rcases kv with ⟨k0, v0⟩
    rw [dictSet]
    by_cases hk : k0 = k
    · subst hk
      simp [List.lookup, hb]
    · simp only [if_neg hk, List.lookup]
      rw [ih]

theorem dictGet_dictSet_eq (d : EngineDict) (k : Url) (v : Option Engine) :
    dictGet (dictSet d k v) k = v := by
  unfold dictGet
  rw [lookup_dictSet_eq]

theorem dictGet_dictSet_ne (d : EngineDict) (k k' : Url) (v : Option Engine)
    (h : k ≠ k') : dictGet (dictSet d k v) k' = dictGet d k' := by
  unfold dictGet
  rw [lookup_dictSet_ne _ _ _ _ h]

/-- Once a URL holds an engine handle in the dict (as observed through
`.get`), it still holds that same handle after the transition. -/
def EnginePreserved (s s' : State) : Prop :=
  ∀ u e, dictGet s.engines u = some e → dictGet s'.engines u = some e

/-- A URL that is not connectable and holds no engine (as observed
through `.get`) still holds none after the transition. -/
def NoFailCache (conn : Conn) (s s' : State) : Prop :=
  ∀ u, conn u = false → dictGet s.engines u = none →
    dictGet s'.engines u = none

/-- Both halves of the engine-cache invariant for one transition. -/
def CacheInv (conn : Conn) (s s' : State) : Prop :=
  EnginePreserved s s' ∧ NoFailCache conn s s'

theorem cacheInv_refl_x (conn : Conn) (s : State) : CacheInv conn s s :=
  ⟨fun _ _ hp => hp, fun _ _ hp => hp⟩

theorem cacheInv_trans (conn : Conn) (s1 s2 s3 : State)
    (h1 : CacheInv conn s1 s2) (h2 : CacheInv conn s2 s3) :
    CacheInv conn s1 s3 :=
  ⟨fun u e hp => h2.1 u e (h1.1 u e hp),
   fun u hc hp => h2.2 u hc (h1.2 u hc hp)⟩

theorem round_cacheInv (conn : Conn) (urls : List Url) (s : State)
    (o : Option Engine) (s' : State) (h : round conn urls s = (o, s')) :
    CacheInv conn s s' := by
  induction urls generalizing s with
  | nil =>
    rw [round, Prod.mk.injEq] at h
    obtain ⟨-, rfl⟩ := h
    exact cacheInv_refl_x conn s
  | cons url rest ih =>
    rw [round] at h
    unfold probe at h
    simp only [] at h
    split at h
    · rename_i e1 heq
      rw [Prod.mk.injEq] at h
      obtain ⟨-, rfl⟩ := h
      exact cacheInv_refl_x conn s
    · rename_i heq
      have heq' : dictGet s.engines url = none := heq
      have hmid : CacheInv conn s
          { s with currentEngineIndexUrl := url,
                   engines := dictSet s.engines url
                     (if conn url = true then some ⟨s.nextId, url⟩ else none),
                   nextId := s.nextId + 1,
                   probeLog := s.probeLog ++ [url] } := by
        constructor
        · intro u e hp
          have hu : url ≠ u := fun huu => by
            rw [huu, hp] at heq'
            exact Option.noConfusion heq'
          show dictGet (dictSet s.engines url _) u = some e
          rw [dictGet_dictSet_ne _ _ _ _ hu]
          exact hp
        · intro u hc hp
          by_cases hu : url = u
          · subst hu
            show dictGet (dictSet s.engines url _) url = none
            rw [dictGet_dictSet_eq, hc]
            simp
          · show dictGet (dictSet s.engines url _) u = none
            rw [dictGet_dictSet_ne _ _ _ _ hu]
            exact hp
      split at h
      · rename_i e1 heq2
        rw [Prod.mk.injEq] at h
        obtain ⟨-, rfl⟩ := h
        exact hmid
      · exact cacheInv_trans conn _ _ _ hmid (ih _ h)

end Sqlax

namespace Sqlax

theorem getOrCreateLoop_cacheInv_x (conn : Conn) (fuel : Nat) (s : State)
    (r : Except PyErr Engine) (s' : State)
    (h : getOrCreateLoop conn fuel s = (r, s')) : CacheInv conn s s' := by
  induction fuel generalizing s with
  | zero =>
    rw [getOrCreateLoop, Prod.mk.injEq] at h
    obtain ⟨-, rfl⟩ := h
    exact cacheInv_refl_x conn s
  | succ fuel ih =>
    rw [getOrCreateLoop] at h
    split at h
    · rename_i e1 s1 heq
      rw [Prod.mk.injEq] at h
      obtain ⟨-, rfl⟩ := h
      exact round_cacheInv _ _ _ _ _ heq
    · rename_i s1 heq
      exact cacheInv_trans conn _ _ _ (round_cacheInv _ _ _ _ _ heq) (ih _ h)

theorem initSessionFactory_cacheInv_x (conn : Conn) (s : State) :
    CacheInv conn s (initSessionFactory conn s).2 := by
  unfold initSessionFactory
  rcases h : getOrCreate conn s with ⟨r, s1⟩
  have := getOrCreateLoop_cacheInv_x conn 3 s r s1 h
  cases r <;> exact this

theorem getNewSession_cacheInv_x (conn : Conn) (s : State) :
    CacheInv conn s (getNewSession conn s).2 := by
  unfold getNewSession
  split
  · exact cacheInv_refl_x conn s
  · rcases h : initSessionFactory conn s with ⟨r, s1⟩
    have hinv : CacheInv conn s s1 := by
      have := initSessionFactory_cacheInv_x conn s
      rw [h] at this
      exact this
    cases r with
    | error err => exact hinv
    | ok u =>
      cases hsf : s1.sessionFactory with
      | none => simp only [hsf]; exact hinv
      | some e => simp only [hsf]; exact hinv

theorem getEngine_cacheInv_x (conn : Conn) (s : State) :
    CacheInv conn s (getEngine conn s).2 := by
  unfold getEngine
  split
  · exact cacheInv_refl_x conn s
  · rcases h : getOrCreate conn s with ⟨r, s1⟩
    have hinv : CacheInv conn s s1 := by
      have := getOrCreateLoop_cacheInv_x conn 3 s r s1 h
      exact this
    cases r with
    | error err => exact hinv
    | ok e =>
      cases hl : s1.engines.lookup s1.currentEngineIndexUrl with
      | none => simp only [hl]; exact hinv
      | some v => simp only [hl]; exact hinv

theorem reflectDatabase_cacheInv_x (conn : Conn)
    (schema : Engine → List (String × Nat)) (s : State) :
    CacheInv conn s (reflectDatabase conn schema s).2 := by
  unfold reflectDatabase
  rcases h : getEngine conn s with ⟨r, s1⟩
  have hinv : CacheInv conn s s1 := by
    have := getEngine_cacheInv_x conn s
    rw [h] at this
    exact this
  rcases r with err | o
  · exact hinv
  · cases o <;> exact hinv

end Sqlax

/-- C6: invariant of the URL-to-engine cache, for every public operation
of both managers: (i) a URL that holds an engine handle keeps that very
handle — later acquisitions reuse it and never create a second engine for
the URL — and (ii) a URL that is not connectable and holds no engine
still holds none afterwards: a failed connect/probe caches nothing (in
the `sqlax` dict the failed probe stores the Python value `None` under
the key, which is indistinguishable from an absent entry through the
`.get` accessor the code uses, here `dictGet`). -/
theorem claim_C6 :
    (∀ conn elapsed s, Sqla.CacheInv conn s (Sqla.getNewSession conn elapsed s).2 ∧
      Sqla.CacheInv conn s (Sqla.getEngine conn elapsed s).2 ∧
      Sqla.CacheInv conn s (Sqla.initSessionFactory conn elapsed s).2 ∧
      ∀ schema, Sqla.CacheInv conn s (Sqla.reflectDatabase conn elapsed schema s).2) ∧
    (∀ conn s, Sqlax.CacheInv conn s (Sqlax.getNewSession conn s).2 ∧
      Sqlax.CacheInv conn s (Sqlax.getEngine conn s).2 ∧
      Sqlax.CacheInv conn s (Sqlax.initSessionFactory conn s).2 ∧
      ∀ schema, Sqlax.CacheInv conn s (Sqlax.reflectDatabase conn schema s).2) := by
  constructor
  · intro conn elapsed s
    exact ⟨Sqla.getNewSession_cacheInv conn elapsed s,
           Sqla.getEngine_cacheInv conn elapsed s,
           Sqla.initSessionFactory_cacheInv conn elapsed s,
           fun schema => Sqla.reflectDatabase_cacheInv conn elapsed schema s⟩
  · intro conn s
    exact ⟨Sqlax.getNewSession_cacheInv_x conn s,
           Sqlax.getEngine_cacheInv_x conn s,
           Sqlax.initSessionFactory_cacheInv_x conn s,
           fun schema => Sqlax.reflectDatabase_cacheInv_x conn schema s⟩

/-- Witness for C6: a `sqlax` manager that cached an engine for `"a"`
still holds that same handle after a `get_new_session` call in a world
where nothing is connectable, and the unconnectable `"b"` still has no
cached engine afterwards. -/
theorem claim_C6_witness :
    Sqlax.dictGet (Sqlax.getNewSession (fun _ => false)
      { urls := ["a", "b"], engines := [("a", some ⟨7, "a"⟩)],
        currentEngineIndexUrl := "a", sessionFactory := none,
        reflectedTables := none, nextId := 8,
        probeLog := ["a"] }).2.engines "a" = some ⟨7, "a"⟩ ∧
    Sqlax.dictGet (Sqlax.getNewSession (fun _ => false)
      { urls := ["a", "b"], engines := [("a", some ⟨7, "a"⟩)],
        currentEngineIndexUrl := "a", sessionFactory := none,
        reflectedTables := none, nextId := 8,
        probeLog := ["a"] }).2.engines "b" = none :=
  ⟨(claim_C6.2 (fun _ => false)
      { urls := ["a", "b"], engines := [("a", some ⟨7, "a"⟩)],
        currentEngineIndexUrl := "a", sessionFactory := none,
        reflectedTables := none, nextId := 8,
        probeLog := ["a"] }).1.1 "a" ⟨7, "a"⟩ (by rfl),
   (claim_C6.2 (fun _ => false)
      { urls := ["a", "b"], engines := [("a", some ⟨7, "a"⟩)],
        currentEngineIndexUrl := "a", sessionFactory := none,
        reflectedTables := none, nextId := 8,
        probeLog := ["a"] }).1.2 "b" (by rfl) (by rfl)⟩

/-! ## Total-failure behaviour of the retry loops -/

namespace Sqla

/-- States reachable while no URL has ever connected: the URL list is
`urls`, the timeout is `t`, every engine slot is empty, and the current
index is in range. -/
def AllFailInv (urls : List Url) (t : Nat) (s : State) : Prop :=
  s.urls = urls ∧ s.timeoutSeconds = t ∧
  (∀ p, s.engines.getD p none = none) ∧
  s.currentEngineIndex < urls.length

theorem step_allfail (conn : Conn) (urls : List Url) (t : Nat) (s : State)
    (o : Option Engine) (s1 : State) (h : step conn s = (o, s1))
    (hc : ∀ u ∈ urls, conn u = false) (hinv : AllFailInv urls t s) :
    o = none ∧ AllFailInv urls t s1 ∧
    s1.probeLog.length = s.probeLog.length + 1 := by
  obtain ⟨hu, ht, hn, hi⟩ := hinv
  have hni : s.engines.getD s.currentEngineIndex none = none := hn _
  have hcu : conn (s.urls.getD s.currentEngineIndex "") = false := by
    apply hc
    rw [hu]
    rw [List.getD_eq_getElem _ _ hi]
    exact List.getElem_mem hi
  have hval : (if conn (s.urls.getD s.currentEngineIndex "") = true
      then some (⟨s.nextId, s.urls.getD s.currentEngineIndex ""⟩ : Engine)
      else none) = none := by
    rw [hcu]
    simp
  unfold step probe at h
  simp only [] at h
  rw [hni] at h
  simp only [hval] at h
  rw [getD_set_none_self _ _ hni] at h
  rw [Prod.mk.injEq] at h
  obtain ⟨rfl, rfl⟩ := h
  refine ⟨rfl, ⟨hu, ht, ?_, ?_⟩, by simp⟩
  · intro p
    by_cases hp : s.currentEngineIndex = p
    · subst hp
      exact getD_set_none_self _ _ hni
    · exact (getD_set_ne _ _ hp).trans (hn p)
  · show (s.currentEngineIndex + 1) % s.urls.length < urls.length
    rw [hu]
    exact Nat.mod_lt _ (Nat.lt_of_le_of_lt (Nat.zero_le _) hi)

end Sqla

namespace Sqla

theorem getOrCreateLoop_allfail (conn : Conn) (urls : List Url) (t : Nat)
    (elapsed : Nat → Nat) (fuel k : Nat) (s : State)
    (r : Except PyErr Engine) (s' : State)
    (h : getOrCreateLoop conn elapsed fuel k s = (r, s'))
    (hc : ∀ u ∈ urls, conn u = false) (hinv : AllFailInv urls t s) :
    r = .error (.runtimeError connFailMsg) ∧ AllFailInv urls t s' ∧
    s'.probeLog.length ≤ s.probeLog.length + fuel ∧
    ((∀ j, elapsed j ≤ t) → s'.probeLog.length = s.probeLog.length + fuel) := by
  induction fuel generalizing k s with
  | zero =>
    rw [getOrCreateLoop, Prod.mk.injEq] at h
    obtain ⟨rfl, rfl⟩ := h
    exact ⟨rfl, hinv, Nat.le_refl _, fun _ => rfl⟩
  | succ fuel ih =>
    rw [getOrCreateLoop] at h
    split at h
    · rename_i e1 s1 heq
      obtain ⟨ho, -, -⟩ := step_allfail conn urls t s _ _ heq hc hinv
      exact Option.noConfusion ho
    · rename_i s1 heq
      obtain ⟨-, hinv1, hlen1⟩ := step_allfail conn urls t s _ _ heq hc hinv
      split at h
      · rename_i htime
        rw [Prod.mk.injEq] at h
        obtain ⟨rfl, rfl⟩ := h
        refine ⟨rfl, hinv1, by omega, ?_⟩
        intro hall
        exfalso
        rw [hinv1.2.1] at htime
        exact absurd (hall k) (Nat.not_le_of_lt htime)
      · rename_i htime
        obtain ⟨hr, hinv', hle, heq'⟩ := ih (k + 1) s1 h hinv1
        refine ⟨hr, hinv', by omega, ?_⟩
        intro hall
        rw [heq' hall, hlen1]
        omega

end Sqla

namespace Sqlax

theorem round_allfail (conn : Conn) (l : List Url) (s : State)
    (o : Option Engine) (s' : State) (h : round conn l s = (o, s'))
    (hc : ∀ u ∈ l, conn u = false)
    (hn : ∀ u ∈ l, dictGet s.engines u = none) :
    o = none ∧ (∀ u, dictGet s'.engines u = dictGet s.engines u) ∧
    s'.probeLog.length = s.probeLog.length + l.length ∧
    s'.urls = s.urls := by
  induction l generalizing s with
  | nil =>
    rw [round, Prod.mk.injEq] at h
    obtain ⟨rfl, rfl⟩ := h
    exact ⟨rfl, fun _ => rfl, rfl, rfl⟩
  | cons url rest ih =>
    have hcu : conn url = false := hc url (List.mem_cons_self url rest)
    have hnu : dictGet s.engines url = none :=
      hn url (List.mem_cons_self url rest)
    rw [round] at h
    unfold probe at h
    simp only [] at h
    split at h
    · rename_i e1 heq
      have heq2 : dictGet s.engines url = some e1 := heq
      rw [hnu] at heq2
      exact Option.noConfusion heq2
    · rename_i heq
      split at h
      · rename_i e1 heq2
        have heq3 : dictGet (dictSet s.engines url
            (if conn url = true then some ⟨s.nextId, url⟩ else none)) url =
            some e1 := heq2
        rw [dictGet_dictSet_eq, hcu] at heq3
        simp at heq3
      · have hn1 : ∀ u ∈ rest, dictGet (dictSet s.engines url
            (if conn url = true then some ⟨s.nextId, url⟩ else none)) u =
            none := by
          intro u hu
          by_cases huu : url = u
          · subst huu
            rw [dictGet_dictSet_eq, hcu]
            simp
          · rw [dictGet_dictSet_ne _ _ _ _ huu]
            exact hn u (List.mem_cons_of_mem _ hu)
        obtain ⟨ho, hg, hlen, hurls⟩ := ih _ h (fun u hu => hc u
          (List.mem_cons_of_mem _ hu)) hn1
        refine ⟨ho, ?_, ?_, hurls⟩
        · intro u
          rw [hg u]
          by_cases huu : url = u
          · subst huu
            rw [dictGet_dictSet_eq, hcu]
            simp [hnu]
          · exact dictGet_dictSet_ne _ _ _ _ huu
        · rw [hlen]
          simp
          omega

theorem getOrCreateLoop_allfail_x (conn : Conn) (urls0 : List Url)
    (fuel : Nat) (s : State) (r : Except PyErr Engine) (s' : State)
    (h : getOrCreateLoop conn fuel s = (r, s'))
    (hurls : s.urls = urls0)
    (hc : ∀ u ∈ urls0, conn u = false)
    (hn : ∀ u ∈ urls0, dictGet s.engines u = none) :
    r = .error (.initializeDatabaseException excMsg) ∧
    s'.probeLog.length = s.probeLog.length + fuel * urls0.length := by
  induction fuel generalizing s with
  | zero =>
    rw [getOrCreateLoop, Prod.mk.injEq] at h
    obtain ⟨rfl, rfl⟩ := h
    exact ⟨rfl, by simp⟩
  | succ fuel ih =>
    rw [getOrCreateLoop] at h
    split at h
    · rename_i e1 s1 heq
      rw [hurls] at heq
      obtain ⟨ho, -, -, -⟩ := round_allfail conn urls0 s _ _ heq hc hn
      exact Option.noConfusion ho
    · rename_i s1 heq
      rw [hurls] at heq
      obtain ⟨-, hg, hlen, hu1⟩ := round_allfail conn urls0 s _ _ heq hc hn
      obtain ⟨hr, hlen'⟩ := ih s1 h (hu1.trans hurls)
        (fun u hu => (hg u).trans (hn u hu))
      refine ⟨hr, ?_⟩
      rw [hlen', hlen, Nat.succ_mul]
      omega

end Sqlax

namespace Sqla

theorem init_ok (urls : List Url) (t : Nat) (s0 : State)
    (h : init urls t = .ok s0) :
    s0 = { urls := urls, timeoutSeconds := t,
           engines := List.replicate urls.length none,
           currentEngineIndex := 0, sessionFactory := none,
           reflectedTables := none, nextId := 0, probeLog := [] } ∧
    urls ≠ [] := by
  unfold init at h
  split at h
  · exact Except.noConfusion h
  · rename_i he
    injection h with h
    exact ⟨h.symm, by simpa using he⟩

end Sqla

namespace Sqlax

theorem init_ok_x (urls : List Url) (s0 : State) (h : init urls = .ok s0) :
    s0 = { urls := urls, engines := [], currentEngineIndexUrl := "",
           sessionFactory := none, reflectedTables := none,
           nextId := 0, probeLog := [] } ∧
    urls ≠ [] := by
  unfold init at h
  split at h
  · exact Except.noConfusion h
  · rename_i he
    injection h with h
    exact ⟨h.symm, by simpa using he⟩

end Sqlax

/-- C2: when zero URLs are connectable, engine acquisition from a freshly
constructed manager always terminates and raises the acquisition failure
after exactly the configured budget: the `sqlax` manager raises
`InitializeDatabaseException` after exactly `3 * |urls|` probes (3 rounds
over the whole list); the `sqla` manager raises `RuntimeError` after at
most `max_attempts = 3` probes, and after exactly 3 probes whenever the
wall-clock deadline `timeout_seconds` is never exceeded (an early
deadline break is the code's alternative termination policy). -/
theorem claim_C2 :
    (∀ urls conn s0, Sqlax.init urls = .ok s0 →
      (∀ u ∈ urls, conn u = false) →
      (Sqlax.getOrCreate conn s0).1 =
        .error (.initializeDatabaseException Sqlax.excMsg) ∧
      (Sqlax.getOrCreate conn s0).2.probeLog.length = 3 * urls.length) ∧
    (∀ urls t conn elapsed s0, Sqla.init urls t = .ok s0 →
      (∀ u ∈ urls, conn u = false) →
      (Sqla.getOrCreate conn elapsed s0).1 =
        .error (.runtimeError Sqla.connFailMsg) ∧
      (Sqla.getOrCreate conn elapsed s0).2.probeLog.length ≤ 3 ∧
      ((∀ j, elapsed j ≤ t) →
        (Sqla.getOrCreate conn elapsed s0).2.probeLog.length = 3)) := by
  constructor
  · intro urls conn s0 hinit hc
    obtain ⟨rfl, hne⟩ := Sqlax.init_ok_x urls s0 hinit
    rcases hr : Sqlax.getOrCreate conn _ with ⟨r, s'⟩
    obtain ⟨hr1, hr2⟩ := Sqlax.getOrCreateLoop_allfail_x conn urls 3 _ r s' hr
      rfl hc (fun u _ => rfl)
    exact ⟨hr1, by simpa using hr2⟩
  · intro urls t conn elapsed s0 hinit hc
    obtain ⟨rfl, hne⟩ := Sqla.init_ok urls t s0 hinit
    have hinv : Sqla.AllFailInv urls t
        { urls := urls, timeoutSeconds := t,
          engines := List.replicate urls.length none,
          currentEngineIndex := 0, sessionFactory := none,
          reflectedTables := none, nextId := 0, probeLog := [] } := by
      refine ⟨rfl, rfl, ?_, ?_⟩
      · intro p
        exact Sqla.getD_replicate_none _ _
      · simpa using List.length_pos.mpr hne
    rcases hr : Sqla.getOrCreate conn elapsed _ with ⟨r, s'⟩
    obtain ⟨hr1, -, hr2, hr3⟩ := Sqla.getOrCreateLoop_allfail conn urls t
      elapsed 3 0 _ r s' hr hc hinv
    refine ⟨hr1, by simpa using hr2, fun hall => by simpa using hr3 hall⟩

/-- Witness for C2: with two unconnectable URLs the `sqlax` manager raises
after exactly six probes. -/
theorem claim_C2_witness :
    (Sqlax.getOrCreate (fun _ => false)
      { urls := ["a", "b"], engines := [], currentEngineIndexUrl := "",
        sessionFactory := none, reflectedTables := none, nextId := 0,
        probeLog := [] }).1 =
      .error (.initializeDatabaseException Sqlax.excMsg) ∧
    (Sqlax.getOrCreate (fun _ => false)
      { urls := ["a", "b"], engines := [], currentEngineIndexUrl := "",
        sessionFactory := none, reflectedTables := none, nextId := 0,
        probeLog := [] }).2.probeLog.length = 3 * (["a", "b"] : List Url).length :=
  claim_C2.1 ["a", "b"] (fun _ => false)
    { urls := ["a", "b"], engines := [], currentEngineIndexUrl := "",
      sessionFactory := none, reflectedTables := none, nextId := 0,
      probeLog := [] } (by rfl) (by decide)

/-! ## Which URLs a raising acquisition call has attempted -/

namespace Sqlax

theorem round_probes_extend (conn : Conn) (l : List Url) (s : State)
    (o : Option Engine) (s' : State) (h : round conn l s = (o, s')) :
    ∃ t, s'.probeLog = s.probeLog ++ t := by
  induction l generalizing s with
  | nil =>
    rw [round, Prod.mk.injEq] at h
    obtain ⟨-, rfl⟩ := h
    exact ⟨[], by simp⟩
  | cons url rest ih =>
    rw [round] at h
    unfold probe at h
    simp only [] at h
    split at h
    · rename_i e1 heq
      rw [Prod.mk.injEq] at h
      obtain ⟨-, rfl⟩ := h
      exact ⟨[], by simp⟩
    · rename_i heq
      split at h
      · rename_i e1 heq2
        rw [Prod.mk.injEq] at h
        obtain ⟨-, rfl⟩ := h
        exact ⟨[url], rfl⟩
      · obtain ⟨t, ht⟩ := ih _ h
        refine ⟨url :: t, ?_⟩
        rw [ht]
        simp

theorem round_none_probes (conn : Conn) (l : List Url) (s : State)
    (s' : State) (h : round conn l s = (none, s')) :
    ∃ t, s'.probeLog = s.probeLog ++ t ∧ ∀ u ∈ l, u ∈ t := by
  induction l generalizing s with
  | nil =>
    rw [round, Prod.mk.injEq] at h
    obtain ⟨-, rfl⟩ := h
    exact ⟨[], by simp⟩
  | cons url rest ih =>
    rw [round] at h
    unfold probe at h
    simp only [] at h
    split at h
    · rename_i e1 heq
      rw [Prod.mk.injEq] at h
      exact Option.noConfusion h.1
    · rename_i heq
      split at h
      · rw [Prod.mk.injEq] at h
        exact Option.noConfusion h.1
      · obtain ⟨t, ht, hmem⟩ := ih _ h
        refine ⟨url :: t, ?_, ?_⟩
        · rw [ht]
          simp
        · intro u hu
          rcases List.mem_cons.mp hu with rfl | hu
          · exact List.mem_cons_self _ _
          · exact List.mem_cons_of_mem _ (hmem u hu)

theorem getOrCreateLoop_probes_extend (conn : Conn) (fuel : Nat) (s : State)
    (r : Except PyErr Engine) (s' : State)
    (h : getOrCreateLoop conn fuel s = (r, s')) :
    ∃ t, s'.probeLog = s.probeLog ++ t := by
  induction fuel generalizing s with
  | zero =>
    rw [getOrCreateLoop, Prod.mk.injEq] at h
    obtain ⟨-, rfl⟩ := h
    exact ⟨[], by simp⟩
  | succ fuel ih =>
    rw [getOrCreateLoop] at h
    split at h
    · rename_i e1 s1 heq
      rw [Prod.mk.injEq] at h
      obtain ⟨-, rfl⟩ := h
      exact round_probes_extend _ _ _ _ _ heq
    · rename_i s1 heq
      obtain ⟨t1, ht1⟩ := round_probes_extend _ _ _ _ _ heq
      obtain ⟨t2, ht2⟩ := ih _ h
      refine ⟨t1 ++ t2, ?_⟩
      rw [ht2, ht1]
      simp

end Sqlax

/-- C1 (amended): in the `sqlax` manager the claim holds: every
acquisition call that raises the hard failure has attempted every URL of
the manager's list during that call (each raising call in fact probes the
whole list once per round).  In the `sqla` manager the claim fails: a
raising call attempts at most `max_attempts = 3` slots, starting from the
current index, so when the list holds more than three URLs some URLs are
never attempted before the failure is surfaced (see the counterexample). -/
theorem claim_C1 :
    ∀ conn s err s', Sqlax.getOrCreate conn s = (.error err, s') →
      ∃ newProbes, s'.probeLog = s.probeLog ++ newProbes ∧
        ∀ u ∈ s.urls, u ∈ newProbes := by
  intro conn s err s' h
  rw [Sqlax.getOrCreate, Sqlax.getOrCreateLoop] at h
  split at h
  · rename_i e1 s1 heq
    rw [Prod.mk.injEq] at h
    exact absurd h.1 (by simp)
  · rename_i s1 heq
    obtain ⟨t1, ht1, hmem1⟩ := Sqlax.round_none_probes _ _ _ _ heq
    obtain ⟨t2, ht2⟩ := Sqlax.getOrCreateLoop_probes_extend _ _ _ _ _ h
    refine ⟨t1 ++ t2, ?_, ?_⟩
    · rw [ht2, ht1]
      simp
    · intro u hu
      exact List.mem_append_left _ (hmem1 u hu)

/-- Witness for C1: a raising acquisition with two unconnectable URLs has
probed both of them. -/
theorem claim_C1_witness :
    ∃ newProbes,
      (Sqlax.getOrCreate (fun _ => false)
        { urls := ["a", "b"], engines := [], currentEngineIndexUrl := "",
          sessionFactory := none, reflectedTables := none, nextId := 0,
          probeLog := [] }).2.probeLog = [] ++ newProbes ∧
      ∀ u ∈ (["a", "b"] : List Url), u ∈ newProbes :=
  claim_C1 (fun _ => false)
    { urls := ["a", "b"], engines := [], currentEngineIndexUrl := "",
      sessionFactory := none, reflectedTables := none, nextId := 0,
      probeLog := [] }
    (.initializeDatabaseException Sqlax.excMsg)
    (Sqlax.getOrCreate (fun _ => false)
      { urls := ["a", "b"], engines := [], currentEngineIndexUrl := "",
        sessionFactory := none, reflectedTables := none, nextId := 0,
        probeLog := [] }).2
    (by rfl)

/-- Counterexample to C1 as stated: the `sqla` manager with four
unconnectable URLs and the default budget (`max_attempts = 3`,
`timeout_seconds = 10`, elapsed time 0 at every check) raises the hard
failure having probed only `a`, `b`, `c`; URL `d` was never attempted —
neither probed nor cached. -/
theorem claim_C1_counterexample :
    (Sqla.getOrCreate (fun _ => false) (fun _ => 0)
      { urls := ["a", "b", "c", "d"], timeoutSeconds := 10,
        engines := [none, none, none, none], currentEngineIndex := 0,
        sessionFactory := none, reflectedTables := none, nextId := 0,
        probeLog := [] }).1 = .error (.runtimeError Sqla.connFailMsg) ∧
    (Sqla.getOrCreate (fun _ => false) (fun _ => 0)
      { urls := ["a", "b", "c", "d"], timeoutSeconds := 10,
        engines := [none, none, none, none], currentEngineIndex := 0,
        sessionFactory := none, reflectedTables := none, nextId := 0,
        probeLog := [] }).2.probeLog = ["a", "b", "c"] ∧
    ("d" : Url) ∈ (["a", "b", "c", "d"] : List Url) ∧
    ("d" : Url) ∉ (["a", "b", "c"] : List Url) ∧
    (Sqla.getOrCreate (fun _ => false) (fun _ => 0)
      { urls := ["a", "b", "c", "d"], timeoutSeconds := 10,
        engines := [none, none, none, none], currentEngineIndex := 0,
        sessionFactory := none, reflectedTables := none, nextId := 0,
        probeLog := [] }).2.engines = [none, none, none, none] := by
  refine ⟨rfl, rfl, by decide, by decide, rfl⟩

/-! ## Behaviour of `reflect_database` without a working engine -/

namespace Sqla

theorem getEngine_allfail (conn : Conn) (urls : List Url) (t : Nat)
    (elapsed : Nat → Nat) (s : State) (r : Except PyErr (Option Engine))
    (s' : State) (h : getEngine conn elapsed s = (r, s'))
    (hc : ∀ u ∈ urls, conn u = false) (hinv : AllFailInv urls t s) :
    r = .error (.runtimeError connFailMsg) ∧
    ((∀ j, elapsed j ≤ t) →
      s'.probeLog.length = s.probeLog.length + 3) := by
  unfold getEngine at h
  rw [hinv.2.2.1 s.currentEngineIndex] at h
  split at h
  · rename_i e1 heq
    exact Option.noConfusion heq
  · rename_i heq
    split at h
    · rename_i err1 s1 heq2
      rw [Prod.mk.injEq] at h
      obtain ⟨rfl, rfl⟩ := h
      obtain ⟨hr1, -, -, hr3⟩ :=
        getOrCreateLoop_allfail conn urls t elapsed 3 0 s _ _ heq2 hc hinv
      injection hr1 with hr1
      exact ⟨by rw [hr1], hr3⟩
    · rename_i e1 s1 heq2
      obtain ⟨hr1, -, -, -⟩ :=
        getOrCreateLoop_allfail conn urls t elapsed 3 0 s _ _ heq2 hc hinv
      exact absurd hr1 (by simp)

theorem reflect_allfail (conn : Conn) (urls : List Url) (t : Nat)
    (elapsed : Nat → Nat) (schema : Engine → List (String × Nat))
    (s : State) (r : Except PyErr Unit) (s' : State)
    (h : reflectDatabase conn elapsed schema s = (r, s'))
    (hc : ∀ u ∈ urls, conn u = false) (hinv : AllFailInv urls t s) :
    r = .error (.runtimeError connFailMsg) ∧
    ((∀ j, elapsed j ≤ t) →
      s'.probeLog.length = s.probeLog.length + 3) := by
  unfold reflectDatabase at h
  split at h
  · rename_i err s1 heq
    obtain ⟨hr1, hr2⟩ := getEngine_allfail conn urls t elapsed s _ _ heq hc hinv
    injection hr1 with hr1
    rw [Prod.mk.injEq] at h
    obtain ⟨rfl, rfl⟩ := h
    exact ⟨by rw [hr1], hr2⟩
  · rename_i s1 heq
    obtain ⟨hr1, -⟩ := getEngine_allfail conn urls t elapsed s _ _ heq hc hinv
    exact absurd hr1 (by simp)
  · rename_i e s1 heq
    obtain ⟨hr1, -⟩ := getEngine_allfail conn urls t elapsed s _ _ heq hc hinv
    exact absurd hr1 (by simp)

end Sqla

namespace Sqlax

theorem getEngine_allfail_x (conn : Conn) (s : State)
    (r : Except PyErr (Option Engine)) (s' : State)
    (h : getEngine conn s = (r, s'))
    (hc : ∀ u ∈ s.urls, conn u = false)
    (hn : ∀ u, dictGet s.engines u = none) :
    r = .error (.initializeDatabaseException excMsg) ∧
    s'.probeLog.length = s.probeLog.length + 3 * s.urls.length := by
  unfold getEngine at h
  rw [hn s.currentEngineIndexUrl] at h
  split at h
  · rename_i e1 heq
    exact Option.noConfusion heq
  · rename_i heq
    split at h
    · rename_i err1 s1 heq2
      rw [Prod.mk.injEq] at h
      obtain ⟨rfl, rfl⟩ := h
      obtain ⟨hr1, hr2⟩ := getOrCreateLoop_allfail_x conn s.urls 3 s _ _ heq2
        rfl hc (fun u _ => hn u)
      injection hr1 with hr1
      exact ⟨by rw [hr1], hr2⟩
    · rename_i e1 s1 heq2
      obtain ⟨hr1, -⟩ := getOrCreateLoop_allfail_x conn s.urls 3 s _ _ heq2
        rfl hc (fun u _ => hn u)
      exact absurd hr1 (by simp)

theorem reflect_allfail_x (conn : Conn) (schema : Engine → List (String × Nat))
    (s : State) (r : Except PyErr Unit) (s' : State)
    (h : reflectDatabase conn schema s = (r, s'))
    (hc : ∀ u ∈ s.urls, conn u = false)
    (hn : ∀ u, dictGet s.engines u = none) :
    r = .error (.initializeDatabaseException excMsg) ∧
    s'.probeLog.length = s.probeLog.length + 3 * s.urls.length := by
  unfold reflectDatabase at h
  split at h
  · rename_i err s1 heq
    obtain ⟨hr1, hr2⟩ := getEngine_allfail_x conn s _ _ heq hc hn
    injection hr1 with hr1
    rw [Prod.mk.injEq] at h
    obtain ⟨rfl, rfl⟩ := h
    exact ⟨by rw [hr1], hr2⟩
  · rename_i s1 heq
    obtain ⟨hr1, -⟩ := getEngine_allfail_x conn s _ _ heq hc hn
    exact absurd hr1 (by simp)
  · rename_i e s1 heq
    obtain ⟨hr1, -⟩ := getEngine_allfail_x conn s _ _ heq hc hn
    exact absurd hr1 (by simp)

end Sqlax

/-- C8 (amended): reflecting without a working engine does not fail with a
distinct, immediately-surfaced schema error: it fails with the ordinary
acquisition failure (`ConnectionUnavailable`), raised from inside
`get_engine` only after the full retry budget has run (3 probes for
`sqla`, `3 * |urls|` probes for `sqlax`).  The dedicated no-engine branch
inside `reflect_database` — the code's only stand-in for
`SchemaUnavailable` — is unreachable, because `get_engine` never returns
`None`. -/
theorem claim_C8 :
    (∀ conn elapsed schema s,
      (Sqla.reflectDatabase conn elapsed schema s).1 ≠
        .error (.runtimeError Sqla.reflectFailMsg)) ∧
    (∀ urls t conn elapsed schema s0, Sqla.init urls t = .ok s0 →
      (∀ u ∈ urls, conn u = false) →
      (Sqla.reflectDatabase conn elapsed schema s0).1 =
        .error (.runtimeError Sqla.connFailMsg) ∧
      ((∀ j, elapsed j ≤ t) →
        (Sqla.reflectDatabase conn elapsed schema s0).2.probeLog.length = 3)) ∧
    (∀ urls conn schema s0, Sqlax.init urls = .ok s0 →
      (∀ u ∈ urls, conn u = false) →
      (Sqlax.reflectDatabase conn schema s0).1 =
        .error (.initializeDatabaseException Sqlax.excMsg) ∧
      (Sqlax.reflectDatabase conn schema s0).2.probeLog.length =
        3 * urls.length) := by
  refine ⟨?_, ?_, ?_⟩
  · intro conn elapsed schema s
    rcases h : Sqla.reflectDatabase conn elapsed schema s with ⟨r, s'⟩
    unfold Sqla.reflectDatabase at h
    split at h
    · rename_i err s1 heq
      rcases Sqla.getEngine_cases conn elapsed s _ s1 heq with ⟨e, he, -⟩ | he
      · exact Except.noConfusion he
      · injection he with he
        subst he
        rw [Prod.mk.injEq] at h
        obtain ⟨rfl, rfl⟩ := h
        intro hcontra
        injection hcontra with hcontra
        injection hcontra with hcontra
        exact absurd hcontra (by decide)
    · rename_i s1 heq
      exfalso
      rcases Sqla.getEngine_cases conn elapsed s _ s1 heq with ⟨e, he, -⟩ | he
      · injection he with he
        exact Option.noConfusion he
      · exact Except.noConfusion he
    · rename_i e s1 heq
      rw [Prod.mk.injEq] at h
      obtain ⟨rfl, rfl⟩ := h
      simp
  · intro urls t conn elapsed schema s0 hinit hc
    obtain ⟨rfl, hne⟩ := Sqla.init_ok urls t s0 hinit
    have hinv : Sqla.AllFailInv urls t
        { urls := urls, timeoutSeconds := t,
          engines := List.replicate urls.length none,
          currentEngineIndex := 0, sessionFactory := none,
          reflectedTables := none, nextId := 0, probeLog := [] } := by
      refine ⟨rfl, rfl, ?_, ?_⟩
      · intro p
        exact Sqla.getD_replicate_none _ _
      · simpa using List.length_pos.mpr hne
    rcases hr : Sqla.reflectDatabase conn elapsed schema _ with ⟨r, s'⟩
    obtain ⟨hr1, hr2⟩ := Sqla.reflect_allfail conn urls t elapsed schema
      _ r s' hr hc hinv
    exact ⟨hr1, fun hall => by simpa using hr2 hall⟩
  · intro urls conn schema s0 hinit hc
    obtain ⟨rfl, hne⟩ := Sqlax.init_ok_x urls s0 hinit
    rcases hr : Sqlax.reflectDatabase conn schema _ with ⟨r, s'⟩
    obtain ⟨hr1, hr2⟩ := Sqlax.reflect_allfail_x conn schema _ r s' hr
      hc (fun u => rfl)
    exact ⟨hr1, by simpa using hr2⟩

/-- Witness for C8: with one unconnectable URL the `sqla` manager's
reflect raises the acquisition failure after exactly 3 probes. -/
theorem claim_C8_witness :
    (Sqla.reflectDatabase (fun _ => false) (fun _ => 0) (fun _ => [])
      { urls := ["a"], timeoutSeconds := 10,
        engines := List.replicate 1 none, currentEngineIndex := 0,
        sessionFactory := none, reflectedTables := none, nextId := 0,
        probeLog := [] }).1 = .error (.runtimeError Sqla.connFailMsg) ∧
    ((∀ j, (fun _ : Nat => 0) j ≤ 10) →
      (Sqla.reflectDatabase (fun _ => false) (fun _ => 0) (fun _ => [])
        { urls := ["a"], timeoutSeconds := 10,
          engines := List.replicate 1 none, currentEngineIndex := 0,
          sessionFactory := none, reflectedTables := none, nextId := 0,
          probeLog := [] }).2.probeLog.length = 3) :=
  claim_C8.2.1 ["a"] 10 (fun _ => false) (fun _ => 0) (fun _ => [])
    { urls := ["a"], timeoutSeconds := 10,
      engines := List.replicate 1 none, currentEngineIndex := 0,
      sessionFactory := none, reflectedTables := none, nextId := 0,
      probeLog := [] } (by rfl) (by decide)

/-- Counterexample to C8 as stated: with one unconnectable URL,
`reflect_database` of the `sqla` manager raises the acquisition failure
message (`ConnectionUnavailable`), not the distinct reflect-specific
message, and only after three probes — an implicit retry, not an
immediate surface. -/
theorem claim_C8_counterexample :
    (Sqla.reflectDatabase (fun _ => false) (fun _ => 0) (fun _ => [])
      { urls := ["a"], timeoutSeconds := 10,
        engines := [none], currentEngineIndex := 0,
        sessionFactory := none, reflectedTables := none, nextId := 0,
        probeLog := [] }).1 = .error (.runtimeError Sqla.connFailMsg) ∧
    Sqla.connFailMsg ≠ Sqla.reflectFailMsg ∧
    (Sqla.reflectDatabase (fun _ => false) (fun _ => 0) (fun _ => [])
      { urls := ["a"], timeoutSeconds := 10,
        engines := [none], currentEngineIndex := 0,
        sessionFactory := none, reflectedTables := none, nextId := 0,
        probeLog := [] }).2.probeLog = ["a", "a", "a"] :=
  ⟨rfl, by decide, rfl⟩

/-! ## The session factory in reachable states -/

namespace Sqla

/-- The cached session factory, when present, is bound to the engine of
the currently selected slot. -/
def FactoryInv (s : State) : Prop :=
  ∀ e, s.sessionFactory = some e →
    s.engines.getD s.currentEngineIndex none = some e

/-- States reachable through the constructor and the public operations of
`sqla.manager.DatabaseManager`, with an arbitrary world at each call. -/
inductive Reach : State → Prop where
  | init (urls : List Url) (t : Nat) (s : State) :
      init urls t = .ok s → Reach s
  | newSession (conn : Conn) (elapsed : Nat → Nat) (s : State) :
      Reach s → Reach (getNewSession conn elapsed s).2
  | engine (conn : Conn) (elapsed : Nat → Nat) (s : State) :
      Reach s → Reach (getEngine conn elapsed s).2
  | factory (conn : Conn) (elapsed : Nat → Nat) (s : State) :
      Reach s → Reach (initSessionFactory conn elapsed s).2
  | reflect (conn : Conn) (elapsed : Nat → Nat)
      (schema : Engine → List (String × Nat)) (s : State) :
      Reach s → Reach (reflectDatabase conn elapsed schema s).2

theorem getOrCreateLoop_factory (conn : Conn) (elapsed : Nat → Nat)
    (fuel k : Nat) (s : State) (r : Except PyErr Engine) (s' : State)
    (h : getOrCreateLoop conn elapsed fuel k s = (r, s')) :
    s'.sessionFactory = s.sessionFactory := by
  cases r with
  | ok e => exact (getOrCreateLoop_ok _ _ _ _ _ _ _ h).2.2.2.1
  | error err => exact (getOrCreateLoop_error _ _ _ _ _ _ _ h).2.2.2.1

theorem initSessionFactory_factoryInv (conn : Conn) (elapsed : Nat → Nat)
    (s : State) (hs : FactoryInv s) :
    FactoryInv (initSessionFactory conn elapsed s).2 := by
  unfold initSessionFactory
  rcases h : getOrCreate conn elapsed s with ⟨r, s1⟩
  cases r with
  | ok e =>
    intro e' he'
    injection he' with he'
    subst he'
    exact (getOrCreateLoop_ok _ _ _ _ _ _ _ h).1
  | error err =>
    intro e' he'
    have hf : s.sessionFactory = some e' := by
      rw [← getOrCreateLoop_factory conn elapsed 3 0 s _ s1 h]
      exact he'
    have hcache := step_cached conn s e' (hs e' hf)
    rw [getOrCreate, getOrCreateLoop, hcache] at h
    rw [Prod.mk.injEq] at h
    exact absurd h.1 (by simp)

theorem getEngine_factoryInv (conn : Conn) (elapsed : Nat → Nat)
    (s : State) (hs : FactoryInv s) :
    FactoryInv (getEngine conn elapsed s).2 := by
  unfold getEngine
  split
  · exact hs
  · rename_i heq
    rcases h : getOrCreate conn elapsed s with ⟨r, s1⟩
    have hfac : s1.sessionFactory = s.sessionFactory :=
      getOrCreateLoop_factory conn elapsed 3 0 s _ s1 h
    cases r with
    | ok e =>
      intro e' he'
      exfalso
      rw [hfac] at he'
      rw [hs e' he'] at heq
      exact Option.noConfusion heq
    | error err =>
      intro e' he'
      exfalso
      rw [hfac] at he'
      rw [hs e' he'] at heq
      exact Option.noConfusion heq

theorem getNewSession_factoryInv (conn : Conn) (elapsed : Nat → Nat)
    (s : State) (hs : FactoryInv s) :
    FactoryInv (getNewSession conn elapsed s).2 := by
  unfold getNewSession
  split
  · exact hs
  · rcases h : initSessionFactory conn elapsed s with ⟨r, s1⟩
    have hinv : FactoryInv s1 := by
      have := initSessionFactory_factoryInv conn elapsed s hs
      rw [h] at this
      exact this
    cases r with
    | error err => exact hinv
    | ok u =>
      cases hsf : s1.sessionFactory with
      | none => simp only [hsf]; exact hinv
      | some e => simp only [hsf]; exact hinv

theorem reflectDatabase_factoryInv (conn : Conn) (elapsed : Nat → Nat)
    (schema : Engine → List (String × Nat)) (s : State) (hs : FactoryInv s) :
    FactoryInv (reflectDatabase conn elapsed schema s).2 := by
  unfold reflectDatabase
  rcases h : getEngine conn elapsed s with ⟨r, s1⟩
  have hinv : FactoryInv s1 := by
    have := getEngine_factoryInv conn elapsed s hs
    rw [h] at this
    exact this
  rcases r with err | o
  · exact hinv
  · cases o with
    | none => exact hinv
    | some e => exact hinv

theorem reach_factoryInv (s : State) (h : Reach s) : FactoryInv s := by
  induction h with
  | init urls t s hinit =>
    obtain ⟨rfl, -⟩ := init_ok urls t s hinit
    intro e he
    exact Option.noConfusion he
  | newSession conn elapsed s hr ih => exact getNewSession_factoryInv _ _ _ ih
  | engine conn elapsed s hr ih => exact getEngine_factoryInv _ _ _ ih
  | factory conn elapsed s hr ih => exact initSessionFactory_factoryInv _ _ _ ih
  | reflect conn elapsed schema s hr ih =>
    exact reflectDatabase_factoryInv _ _ _ _ ih

end Sqla

namespace Sqlax

/-- The cached session factory, when present, is bound to the engine of
the currently selected URL, which is one of the manager's URLs. -/
def FactoryInv (s : State) : Prop :=
  ∀ e, s.sessionFactory = some e →
    dictGet s.engines s.currentEngineIndexUrl = some e ∧
    s.currentEngineIndexUrl ∈ s.urls

/-- States reachable through the constructor and the public operations of
`sqlax.manager.DatabaseManager`, with an arbitrary world at each call. -/
inductive Reach : State → Prop where
  | init (urls : List Url) (s : State) : init urls = .ok s → Reach s
  | newSession (conn : Conn) (s : State) :
      Reach s → Reach (getNewSession conn s).2
  | engine (conn : Conn) (s : State) :
      Reach s → Reach (getEngine conn s).2
  | factory (conn : Conn) (s : State) :
      Reach s → Reach (initSessionFactory conn s).2
  | reflect (conn : Conn) (schema : Engine → List (String × Nat)) (s : State) :
      Reach s → Reach (reflectDatabase conn schema s).2

theorem round_some_mem (conn : Conn) (l : List Url) (s : State) (e : Engine)
    (s' : State) (h : round conn l s = (some e, s')) :
    s'.currentEngineIndexUrl ∈ l := by
  induction l generalizing s with
  | nil =>
    rw [round, Prod.mk.injEq] at h
    exact Option.noConfusion h.1
  | cons url rest ih =>
    rw [round] at h
    unfold probe at h
    simp only [] at h
    split at h
    · rename_i e1 heq
      rw [Prod.mk.injEq] at h
      obtain ⟨-, rfl⟩ := h
      exact List.mem_cons_self _ _
    · rename_i heq
      split at h
      · rename_i e1 heq2
        rw [Prod.mk.injEq] at h
        obtain ⟨-, rfl⟩ := h
        exact List.mem_cons_self _ _
      · exact List.mem_cons_of_mem _ (ih _ h)

theorem getOrCreateLoop_ok_mem (conn : Conn) (fuel : Nat) (s : State)
    (e : Engine) (s' : State) (h : getOrCreateLoop conn fuel s = (.ok e, s')) :
    s'.currentEngineIndexUrl ∈ s.urls := by
  induction fuel generalizing s with
  | zero =>
    rw [getOrCreateLoop, Prod.mk.injEq] at h
    exact absurd h.1 (by simp)
  | succ fuel ih =>
    rw [getOrCreateLoop] at h
    split at h
    · rename_i e1 s1 heq
      rw [Prod.mk.injEq] at h
      obtain ⟨h1, rfl⟩ := h
      exact round_some_mem _ _ _ _ _ heq
    · rename_i s1 heq
      have hmem := ih _ h
      rw [(round_none _ _ _ _ heq).1] at hmem
      exact hmem

theorem round_none_no_cached (conn : Conn) (l : List Url) (s : State)
    (s' : State) (u : Url) (e : Engine) (h : round conn l s = (none, s'))
    (hu : u ∈ l) (he : dictGet s.engines u = some e) : False := by
  induction l generalizing s with
  | nil => exact absurd hu (List.not_mem_nil u)
  | cons url rest ih =>
    rw [round] at h
    unfold probe at h
    simp only [] at h
    split at h
    · rename_i e1 heq
      rw [Prod.mk.injEq] at h
      exact Option.noConfusion h.1
    · rename_i heq
      have heq' : dictGet s.engines url = none := heq
      have hne : url ≠ u := fun huu => by
        rw [huu, he] at heq'
        exact Option.noConfusion heq'
      split at h
      · rw [Prod.mk.injEq] at h
        exact Option.noConfusion h.1
      · rcases List.mem_cons.mp hu with rfl | hu'
        · exact absurd rfl hne
        · refine ih _ h hu' ?_
          show dictGet (dictSet s.engines url _) u = some e
          rw [dictGet_dictSet_ne _ _ _ _ hne]
          exact he

theorem getOrCreateLoop_error_no_cached (conn : Conn) (fuel : Nat)
    (s : State) (err : PyErr) (s' : State) (u : Url) (e : Engine)
    (h : getOrCreateLoop conn (fuel + 1) s = (.error err, s'))
    (hu : u ∈ s.urls) (he : dictGet s.engines u = some e) : False := by
  rw [getOrCreateLoop] at h
  split at h
  · rename_i e1 s1 heq
    rw [Prod.mk.injEq] at h
    exact absurd h.1 (by simp)
  · rename_i s1 heq
    exact round_none_no_cached conn s.urls s s1 u e heq hu he

theorem getOrCreateLoop_factory_x (conn : Conn) (fuel : Nat) (s : State)
    (r : Except PyErr Engine) (s' : State)
    (h : getOrCreateLoop conn fuel s = (r, s')) :
    s'.sessionFactory = s.sessionFactory := by
  cases r with
  | ok e => exact (getOrCreateLoop_ok_x _ _ _ _ _ h).2.2.1
  | error err => exact (getOrCreateLoop_error_x _ _ _ _ _ h).2.2.1

theorem initSessionFactory_factoryInv_x (conn : Conn) (s : State)
    (hs : FactoryInv s) : FactoryInv (initSessionFactory conn s).2 := by
  unfold initSessionFactory
  rcases h : getOrCreate conn s with ⟨r, s1⟩
  cases r with
  | ok e =>
    intro e' he'
    injection he' with he'
    subst he'
    refine ⟨(getOrCreateLoop_ok_x _ _ _ _ _ h).1, ?_⟩
    show s1.currentEngineIndexUrl ∈ s1.urls
    rw [(getOrCreateLoop_ok_x _ _ _ _ _ h).2.1]
    exact getOrCreateLoop_ok_mem _ _ _ _ _ h
  | error err =>
    intro e' he'
    exfalso
    have hf : s.sessionFactory = some e' := by
      rw [← getOrCreateLoop_factory_x conn 3 s _ s1 h]
      exact he'
    obtain ⟨hcached, hmem⟩ := hs e' hf
    exact getOrCreateLoop_error_no_cached conn 2 s err s1 _ e' h hmem hcached

theorem getEngine_factoryInv_x (conn : Conn) (s : State) (hs : FactoryInv s) :
    FactoryInv (getEngine conn s).2 := by
  unfold getEngine
  split
  · exact hs
  · rename_i heq
    rcases h : getOrCreate conn s with ⟨r, s1⟩
    have hfac : s1.sessionFactory = s.sessionFactory :=
      getOrCreateLoop_factory_x conn 3 s _ s1 h
    have himp : ∀ e', s1.sessionFactory = some e' → False := by
      intro e' he'
      rw [hfac] at he'
      rw [(hs e' he').1] at heq
      exact Option.noConfusion heq
    cases r with
    | error err =>
      intro e' he'
      exact absurd he' (fun he'' => himp e' he'')
    | ok e =>
      cases hl : s1.engines.lookup s1.currentEngineIndexUrl with
      | none =>
        simp only [hl]
        intro e' he'
        exact absurd he' (fun he'' => himp e' he'')
      | some v =>
        simp only [hl]
        intro e' he'
        exact absurd he' (fun he'' => himp e' he'')

theorem getNewSession_factoryInv_x (conn : Conn) (s : State)
    (hs : FactoryInv s) : FactoryInv (getNewSession conn s).2 := by
  unfold getNewSession
  split
  · exact hs
  · rcases h : initSessionFactory conn s with ⟨r, s1⟩
    have hinv : FactoryInv s1 := by
      have := initSessionFactory_factoryInv_x conn s hs
      rw [h] at this
      exact this
    cases r with
    | error err => exact hinv
    | ok u =>
      cases hsf : s1.sessionFactory with
      | none => simp only [hsf]; exact hinv
      | some e => simp only [hsf]; exact hinv

theorem reflectDatabase_factoryInv_x (conn : Conn)
    (schema : Engine → List (String × Nat)) (s : State) (hs : FactoryInv s) :
    FactoryInv (reflectDatabase conn schema s).2 := by
  unfold reflectDatabase
  rcases h : getEngine conn s with ⟨r, s1⟩
  have hinv : FactoryInv s1 := by
    have := getEngine_factoryInv_x conn s hs
    rw [h] at this
    exact this
  rcases r with err | o
  · exact hinv
  · cases o with
    | none => exact hinv
    | some e => exact hinv

theorem reach_factoryInv_x (s : State) (h : Reach s) : FactoryInv s := by
  induction h with
  | init urls s hinit =>
    obtain ⟨rfl, -⟩ := init_ok_x urls s hinit
    intro e he
    exact Option.noConfusion he
  | newSession conn s hr ih => exact getNewSession_factoryInv_x _ _ ih
  | engine conn s hr ih => exact getEngine_factoryInv_x _ _ ih
  | factory conn s hr ih => exact initSessionFactory_factoryInv_x _ _ ih
  | reflect conn schema s hr ih => exact reflectDatabase_factoryInv_x _ _ _ ih

end Sqlax

/-- C4 (amended): the code never invalidates or rebuilds the session
factory — `get_new_session` with an existing factory returns a session
bound to the factory's build-time engine even in a state where the
selection has moved (see the counterexample).  What does hold is that
such states are unreachable: in every state reachable through the
constructor and the public operations, the cached factory, when present,
is bound to the engine cached under the currently selected target, so the
session handed out is bound to the currently selected engine. -/
theorem claim_C4 :
    (∀ s, Sqla.Reach s → ∀ e, s.sessionFactory = some e →
      s.engines.getD s.currentEngineIndex none = some e) ∧
    (∀ s, Sqlax.Reach s → ∀ e, s.sessionFactory = some e →
      Sqlax.dictGet s.engines s.currentEngineIndexUrl = some e) :=
  ⟨fun s hr e he => Sqla.reach_factoryInv s hr e he,
   fun s hr e he => (Sqlax.reach_factoryInv_x s hr e he).1⟩

/-- Witness for C4: after a first `get_new_session` on a fresh manager
the factory is bound to the engine cached under the current selection. -/
theorem claim_C4_witness :
    (Sqla.getNewSession (fun _ => true) (fun _ => 0)
      { urls := ["a"], timeoutSeconds := 10, engines := [none],
        currentEngineIndex := 0, sessionFactory := none,
        reflectedTables := none, nextId := 0,
        probeLog := [] }).2.engines.getD
      (Sqla.getNewSession (fun _ => true) (fun _ => 0)
        { urls := ["a"], timeoutSeconds := 10, engines := [none],
          currentEngineIndex := 0, sessionFactory := none,
          reflectedTables := none, nextId := 0,
          probeLog := [] }).2.currentEngineIndex none = some ⟨0, "a"⟩ :=
  claim_C4.1 _
    (Sqla.Reach.newSession (fun _ => true) (fun _ => 0) _
      (Sqla.Reach.init ["a"] 10 _ rfl))
    ⟨0, "a"⟩ (by rfl)

/-- Counterexample to C4 as stated: in a state where the factory was
built on engine `⟨0, a⟩` but the selection has since moved to slot 1
holding engine `⟨1, b⟩`, the next `get_new_session` returns a session
still bound to the old engine `⟨0, a⟩` — the factory is not rebuilt —
even though the currently selected engine is `⟨1, b⟩`. -/
theorem claim_C4_counterexample :
    Sqla.getNewSession (fun _ => true) (fun _ => 0)
      { urls := ["a", "b"], timeoutSeconds := 10,
        engines := [some ⟨0, "a"⟩, some ⟨1, "b"⟩], currentEngineIndex := 1,
        sessionFactory := some ⟨0, "a"⟩, reflectedTables := none,
        nextId := 2, probeLog := ["a", "b"] } =
      (.ok ⟨0, "a"⟩,
        { urls := ["a", "b"], timeoutSeconds := 10,
          engines := [some ⟨0, "a"⟩, some ⟨1, "b"⟩], currentEngineIndex := 1,
          sessionFactory := some ⟨0, "a"⟩, reflectedTables := none,
          nextId := 2, probeLog := ["a", "b"] }) ∧
    ((⟨0, "a"⟩ : Engine) ≠ ⟨1, "b"⟩) ∧
    ({ urls := ["a", "b"], timeoutSeconds := 10,
       engines := [some ⟨0, "a"⟩, some ⟨1, "b"⟩], currentEngineIndex := 1,
       sessionFactory := some ⟨0, "a"⟩, reflectedTables := none,
       nextId := 2, probeLog := ["a", "b"] } : Sqla.State).engines.getD
      1 none = some ⟨1, "b"⟩ :=
  ⟨rfl, by decide, rfl⟩

/-! ## Eventual success of failover when exactly one URL is connectable -/

namespace Sqla

theorem getD_set_self_lt (l : List (Option Engine)) (i : Nat)
    (x : Option Engine) (h : i < l.length) :
    (l.set i x).getD i none = x := by
  simp [List.getD_eq_getElem?_getD, List.getElem?_set_self',
    List.getElem?_eq_getElem h]

/-- Cyclic distance from index `i` to index `j` in a list of length `n`. -/
def dist (n j i : Nat) : Nat := if i ≤ j then j - i else j + n - i

theorem dist_step (n j i : Nat) (hi : i < n) (hj : j < n) (hne : i ≠ j) :
    dist n j ((i + 1) % n) < dist n j i := by
  by_cases hin : i + 1 = n
  · rw [hin, Nat.mod_self]
    unfold dist
    split <;> split <;> omega
  · rw [Nat.mod_eq_of_lt (by omega)]
    unfold dist
    split <;> split <;> omega

/-- The states seen between failed `get_new_session` calls while no URL
has ever connected: fixed URL list and timeout, engine list of the right
length with every slot empty, current index in range, no factory. -/
def OneInv (urls : List Url) (t : Nat) (s : State) : Prop :=
  s.urls = urls ∧ s.timeoutSeconds = t ∧
  s.engines.length = urls.length ∧
  (∀ p, s.engines.getD p none = none) ∧
  s.currentEngineIndex < urls.length ∧
  s.sessionFactory = none

theorem step_at_good (conn : Conn) (urls : List Url) (t j : Nat) (s : State)
    (o : Option Engine) (s1 : State) (h : step conn s = (o, s1))
    (hj : j < urls.length) (hcj : conn (urls.getD j "") = true)
    (hinv : OneInv urls t s) (hcur : s.currentEngineIndex = j) :
    o = some ⟨s.nextId, urls.getD j ""⟩ := by
  obtain ⟨hu, ht, hlen, hn, hc, hf⟩ := hinv
  have hval : (if conn (s.urls.getD s.currentEngineIndex "") = true
      then some (⟨s.nextId, s.urls.getD s.currentEngineIndex ""⟩ : Engine)
      else none) = some ⟨s.nextId, urls.getD j ""⟩ := by
    rw [hu, hcur, hcj]
    simp
  have hset : (s.engines.set s.currentEngineIndex
      (if conn (s.urls.getD s.currentEngineIndex "") = true
        then some (⟨s.nextId, s.urls.getD s.currentEngineIndex ""⟩ : Engine)
        else none)).getD s.currentEngineIndex none =
      some ⟨s.nextId, urls.getD j ""⟩ := by
    rw [getD_set_self_lt _ _ _ (by rw [hlen, hcur]; exact hj)]
    exact hval
  unfold step probe at h
  simp only [] at h
  split at h
  · rename_i e1 heq
    rw [hn s.currentEngineIndex] at heq
    exact Option.noConfusion heq
  · rename_i heq
    split at h
    · rename_i e1 heq2
      rw [hset] at heq2
      injection heq2 with heq2
      rw [Prod.mk.injEq] at h
      rw [← h.1, ← heq2]
    · rename_i heq2
      rw [hset] at heq2
      exact Option.noConfusion heq2

theorem step_off_good (conn : Conn) (urls : List Url) (t j : Nat) (s : State)
    (o : Option Engine) (s1 : State) (h : step conn s = (o, s1))
    (_hj : j < urls.length)
    (hco : ∀ k, k < urls.length → k ≠ j → conn (urls.getD k "") = false)
    (hinv : OneInv urls t s) (hcur : s.currentEngineIndex ≠ j) :
    o = none ∧ OneInv urls t s1 ∧
    s1.currentEngineIndex = (s.currentEngineIndex + 1) % urls.length := by
  obtain ⟨hu, ht, hlen, hn, hc, hf⟩ := hinv
  have hcu : conn (s.urls.getD s.currentEngineIndex "") = false := by
    rw [hu]
    exact hco s.currentEngineIndex hc hcur
  have hval : (if conn (s.urls.getD s.currentEngineIndex "") = true
      then some (⟨s.nextId, s.urls.getD s.currentEngineIndex ""⟩ : Engine)
      else none) = none := by
    rw [hcu]
    simp
  have hset : (s.engines.set s.currentEngineIndex
      (if conn (s.urls.getD s.currentEngineIndex "") = true
        then some (⟨s.nextId, s.urls.getD s.currentEngineIndex ""⟩ : Engine)
        else none)).getD s.currentEngineIndex none = none := by
    rw [hval]
    exact getD_set_self_lt _ _ _ (by rw [hlen]; exact hc)
  unfold step probe at h
  simp only [] at h
  split at h
  · rename_i e1 heq
    rw [hn s.currentEngineIndex] at heq
    exact Option.noConfusion heq
  · rename_i heq
    split at h
    · rename_i e1 heq2
      rw [hset] at heq2
      exact Option.noConfusion heq2
    · rename_i heq2
      rw [Prod.mk.injEq] at h
      obtain ⟨ho, rfl⟩ := h
      refine ⟨ho.symm, ⟨hu, ht, ?_, ?_, ?_, hf⟩, ?_⟩
      · simpa using hlen
      · intro p
        by_cases hp : s.currentEngineIndex = p
        · subst hp
          exact hset
        · exact (getD_set_ne _ _ hp).trans (hn p)
      · show (s.currentEngineIndex + 1) % s.urls.length < urls.length
        rw [hu]
        exact Nat.mod_lt _ (by omega)
      · show (s.currentEngineIndex + 1) % s.urls.length =
          (s.currentEngineIndex + 1) % urls.length
        rw [hu]

end Sqla

namespace Sqla

theorem getOrCreateLoop_one (conn : Conn) (urls : List Url) (t j : Nat)
    (elapsed : Nat → Nat) (fuel k : Nat) (s : State)
    (r : Except PyErr Engine) (s' : State)
    (h : getOrCreateLoop conn elapsed fuel k s = (r, s'))
    (hj : j < urls.length) (hcj : conn (urls.getD j "") = true)
    (hco : ∀ k0, k0 < urls.length → k0 ≠ j → conn (urls.getD k0 "") = false)
    (hinv : OneInv urls t s) (hfuel : 1 ≤ fuel) :
    (∃ e, r = .ok e ∧ e.url = urls.getD j "") ∨
    (r = .error (.runtimeError connFailMsg) ∧ OneInv urls t s' ∧
      dist urls.length j s'.currentEngineIndex <
        dist urls.length j s.currentEngineIndex) := by
  induction fuel generalizing k s r s' with
  | zero => omega
  | succ f ih =>
    rw [getOrCreateLoop] at h
    by_cases hcur : s.currentEngineIndex = j
    · split at h
      · rename_i e1 s1 heq
        have hgood := step_at_good conn urls t j s _ _ heq hj hcj hinv hcur
        injection hgood with hgood
        rw [Prod.mk.injEq] at h
        obtain ⟨rfl, rfl⟩ := h
        exact Or.inl ⟨e1, rfl, by rw [hgood]⟩
      · rename_i s1 heq
        have hgood := step_at_good conn urls t j s _ _ heq hj hcj hinv hcur
        exact Option.noConfusion hgood
    · split at h
      · rename_i e1 s1 heq
        obtain ⟨ho, -, -⟩ := step_off_good conn urls t j s _ _ heq hj hco hinv hcur
        exact Option.noConfusion ho
      · rename_i s1 heq
        obtain ⟨-, hinv1, hcur1⟩ :=
          step_off_good conn urls t j s _ _ heq hj hco hinv hcur
        have hdist : dist urls.length j s1.currentEngineIndex <
            dist urls.length j s.currentEngineIndex := by
          rw [hcur1]
          exact dist_step _ _ _ hinv.2.2.2.2.1 hj hcur
        split at h
        · rw [Prod.mk.injEq] at h
          obtain ⟨rfl, rfl⟩ := h
          exact Or.inr ⟨rfl, hinv1, hdist⟩
        · rcases Nat.eq_zero_or_pos f with rfl | hf
          · rw [getOrCreateLoop, Prod.mk.injEq] at h
            obtain ⟨rfl, rfl⟩ := h
            exact Or.inr ⟨rfl, hinv1, hdist⟩
          · rcases ih k.succ s1 r s' h hinv1 hf with hl | ⟨hr1, hinv2, hd2⟩
            · exact Or.inl hl
            · exact Or.inr ⟨hr1, hinv2, Nat.lt_trans hd2 hdist⟩

theorem getNewSession_one (conn : Conn) (urls : List Url) (t j : Nat)
    (elapsed : Nat → Nat) (s : State) (r : Except PyErr Engine) (s' : State)
    (h : getNewSession conn elapsed s = (r, s'))
    (hj : j < urls.length) (hcj : conn (urls.getD j "") = true)
    (hco : ∀ k0, k0 < urls.length → k0 ≠ j → conn (urls.getD k0 "") = false)
    (hinv : OneInv urls t s) :
    (∃ e, r = .ok e ∧ e.url = urls.getD j "") ∨
    (OneInv urls t s' ∧
      dist urls.length j s'.currentEngineIndex <
        dist urls.length j s.currentEngineIndex) := by
  unfold getNewSession at h
  split at h
  · rename_i e heq
    rw [hinv.2.2.2.2.2] at heq
    exact Option.noConfusion heq
  · split at h
    · rename_i err s1 heq
      unfold initSessionFactory at heq
      split at heq
      · rename_i e1 s2 heq2
        rw [Prod.mk.injEq] at heq
        exact absurd heq.1 (by simp)
      · rename_i err1 s2 heq2
        rw [Prod.mk.injEq] at heq
        obtain ⟨heq3, rfl⟩ := heq
        injection heq3 with heq3
        subst heq3
        rcases getOrCreateLoop_one conn urls t j elapsed 3 0 s _ _ heq2
          hj hcj hco hinv (by omega) with ⟨e, he, -⟩ | ⟨-, hinv2, hd⟩
        · exact Except.noConfusion he
        · rw [Prod.mk.injEq] at h
          obtain ⟨rfl, rfl⟩ := h
          exact Or.inr ⟨hinv2, hd⟩
    · rename_i u s1 heq
      unfold initSessionFactory at heq
      split at heq
      · rename_i e1 s2 heq2
        rw [Prod.mk.injEq] at heq
        obtain ⟨-, hs1⟩ := heq
        rcases getOrCreateLoop_one conn urls t j elapsed 3 0 s _ _ heq2
          hj hcj hco hinv (by omega) with ⟨e, he, hurl⟩ | ⟨hr1, -, -⟩
        · injection he with he
          subst he
          split at h
          · rename_i e2 heq3
            rw [← hs1] at heq3
            injection heq3 with heq3
            rw [Prod.mk.injEq] at h
            obtain ⟨rfl, rfl⟩ := h
            exact Or.inl ⟨e2, rfl, by rw [← heq3]; exact hurl⟩
          · rename_i heq3
            rw [← hs1] at heq3
            exact Option.noConfusion heq3
        · exact Except.noConfusion hr1
      · rename_i err1 s2 heq2
        rw [Prod.mk.injEq] at heq
        exact absurd heq.1 (by simp)

end Sqla

namespace Sqla

/-- The manager state after `m` further `get_new_session` calls, where
call number `i` (from the current point) observes the elapsed-time trace
`els i`. -/
def afterCalls (conn : Conn) : (Nat → Nat → Nat) → Nat → State → State
  | _, 0, s => s
  | els, m + 1, s =>
    afterCalls conn (fun i => els (i + 1)) m (getNewSession conn (els 0) s).2

theorem eventual_success (conn : Conn) (urls : List Url) (t j : Nat)
    (hj : j < urls.length) (hcj : conn (urls.getD j "") = true)
    (hco : ∀ k0, k0 < urls.length → k0 ≠ j → conn (urls.getD k0 "") = false) :
    ∀ d els s, OneInv urls t s →
      dist urls.length j s.currentEngineIndex = d →
      ∃ m e, (getNewSession conn (els m) (afterCalls conn els m s)).1 = .ok e ∧
        e.url = urls.getD j "" := by
  intro d
  induction d using Nat.strong_induction_on with
  | _ d ih =>
    intro els s hinv hd
    rcases hr : getNewSession conn (els 0) s with ⟨r, s'⟩
    rcases getNewSession_one conn urls t j (els 0) s r s' hr hj hcj hco hinv
      with ⟨e, he, hurl⟩ | ⟨hinv1, hdist⟩
    · refine ⟨0, e, ?_, hurl⟩
      show (getNewSession conn (els 0) s).1 = .ok e
      rw [hr]
      exact he
    · have hdlt : dist urls.length j s'.currentEngineIndex < d := by omega
      obtain ⟨m, e, hm, hurl⟩ := ih _ hdlt (fun i => els (i + 1)) s' hinv1 rfl
      refine ⟨m + 1, e, ?_, hurl⟩
      show (getNewSession conn (els (m + 1))
        (afterCalls conn (fun i => els (i + 1)) m
          (getNewSession conn (els 0) s).2)).1 = .ok e
      rw [hr]
      exact hm

end Sqla

namespace Sqlax

theorem round_one (conn : Conn) (l : List Url) (s : State)
    (o : Option Engine) (s1 : State) (h : round conn l s = (o, s1))
    (hn : ∀ u, dictGet s.engines u = none)
    (hex : ∃ u, u ∈ l ∧ conn u = true) :
    ∃ e, o = some e ∧ conn e.url = true ∧ e.url ∈ l := by
  induction l generalizing s with
  | nil =>
    obtain ⟨u, hu, -⟩ := hex
    exact absurd hu (List.not_mem_nil u)
  | cons url rest ih =>
    rw [round] at h
    unfold probe at h
    simp only [] at h
    split at h
    · rename_i e1 heq
      have heq' : dictGet s.engines url = some e1 := heq
      rw [hn url] at heq'
      exact Option.noConfusion heq'
    · rename_i heq
      split at h
      · rename_i e1 heq2
        have heq3 : dictGet (dictSet s.engines url
            (if conn url = true then some ⟨s.nextId, url⟩ else none)) url =
            some e1 := heq2
        rw [dictGet_dictSet_eq] at heq3
        by_cases hcu : conn url = true
        · rw [if_pos hcu] at heq3
          injection heq3 with heq3
          rw [Prod.mk.injEq] at h
          obtain ⟨ho, -⟩ := h
          subst heq3
          exact ⟨⟨s.nextId, url⟩, ho.symm, hcu, List.mem_cons_self _ _⟩
        · rw [if_neg hcu] at heq3
          exact Option.noConfusion heq3
      · rename_i heq2
        have heq3 : dictGet (dictSet s.engines url
            (if conn url = true then some ⟨s.nextId, url⟩ else none)) url =
            none := heq2
        rw [dictGet_dictSet_eq] at heq3
        by_cases hcu : conn url = true
        · rw [if_pos hcu] at heq3
          exact Option.noConfusion heq3
        · obtain ⟨u, hu, hut⟩ := hex
          have hune : u ≠ url := fun huu => by
            rw [huu] at hut
            exact absurd hut (by simp [hcu])
          have hn1 : ∀ u', dictGet (dictSet s.engines url
              (if conn url = true then some ⟨s.nextId, url⟩ else none)) u' =
              none := by
            intro u'
            by_cases huu : url = u'
            · subst huu
              rw [dictGet_dictSet_eq, if_neg hcu]
            · rw [dictGet_dictSet_ne _ _ _ _ huu]
              exact hn u'
          obtain ⟨e, ho, hc, hm⟩ := ih _ h hn1
            ⟨u, by
              rcases List.mem_cons.mp hu with rfl | hu'
              · exact absurd rfl hune
              · exact hu', hut⟩
          exact ⟨e, ho, hc, List.mem_cons_of_mem _ hm⟩

theorem getOrCreateLoop_one_x (conn : Conn) (fuel : Nat) (s : State)
    (r : Except PyErr Engine) (s' : State)
    (h : getOrCreateLoop conn (fuel + 1) s = (r, s'))
    (hn : ∀ u, dictGet s.engines u = none)
    (hex : ∃ u, u ∈ s.urls ∧ conn u = true) :
    ∃ e, r = .ok e ∧ conn e.url = true ∧ e.url ∈ s.urls := by
  rw [getOrCreateLoop] at h
  split at h
  · rename_i e1 s1 heq
    obtain ⟨e, ho, hc, hm⟩ := round_one conn s.urls s _ _ heq hn hex
    injection ho with ho
    rw [Prod.mk.injEq] at h
    obtain ⟨rfl, rfl⟩ := h
    exact ⟨e1, rfl, by rw [ho]; exact hc, by rw [ho]; exact hm⟩
  · rename_i s1 heq
    obtain ⟨e, ho, -, -⟩ := round_one conn s.urls s _ _ heq hn hex
    exact Option.noConfusion ho

theorem getNewSession_one_x (conn : Conn) (s : State)
    (r : Except PyErr Engine) (s' : State)
    (h : getNewSession conn s = (r, s'))
    (hfac : s.sessionFactory = none)
    (hn : ∀ u, dictGet s.engines u = none)
    (hex : ∃ u, u ∈ s.urls ∧ conn u = true) :
    ∃ e, r = .ok e ∧ conn e.url = true ∧ e.url ∈ s.urls := by
  unfold getNewSession at h
  split at h
  · rename_i e heq
    rw [hfac] at heq
    exact Option.noConfusion heq
  · split at h
    · rename_i err s1 heq
      unfold initSessionFactory at heq
      split at heq
      · rw [Prod.mk.injEq] at heq
        exact absurd heq.1 (by simp)
      · rename_i err1 s2 heq2
        obtain ⟨e, ho, -, -⟩ := getOrCreateLoop_one_x conn 2 s _ _ heq2 hn hex
        exact Except.noConfusion ho
    · rename_i u s1 heq
      unfold initSessionFactory at heq
      split at heq
      · rename_i e1 s2 heq2
        rw [Prod.mk.injEq] at heq
        obtain ⟨-, hs1⟩ := heq
        obtain ⟨e, ho, hc, hm⟩ := getOrCreateLoop_one_x conn 2 s _ _ heq2 hn hex
        injection ho with ho
        subst ho
        split at h
        · rename_i e2 heq3
          rw [← hs1] at heq3
          injection heq3 with heq3
          rw [Prod.mk.injEq] at h
          obtain ⟨rfl, rfl⟩ := h
          exact ⟨e2, rfl, by rw [← heq3]; exact hc, by rw [← heq3]; exact hm⟩
        · rename_i heq3
          rw [← hs1] at heq3
          exact Option.noConfusion heq3
      · rw [Prod.mk.injEq] at heq
        exact absurd heq.1 (by simp)

end Sqlax

/-- C3: if exactly one URL of the list is connectable, sessions are
eventually obtained whatever the position of that URL: for the `sqla`
manager some finite number `m` of repeated `get_new_session` calls (with
arbitrary elapsed-time traces) returns a session bound to an engine for
the connectable URL; for the `sqlax` manager already the first call
returns such a session. -/
theorem claim_C3 :
    (∀ urls t conn j s0, Sqla.init urls t = .ok s0 →
      j < urls.length → conn (urls.getD j "") = true →
      (∀ k, k < urls.length → k ≠ j → conn (urls.getD k "") = false) →
      ∀ els, ∃ m e,
        (Sqla.getNewSession conn (els m) (Sqla.afterCalls conn els m s0)).1 =
          .ok e ∧ e.url = urls.getD j "") ∧
    (∀ urls conn j s0, Sqlax.init urls = .ok s0 →
      j < urls.length → conn (urls.getD j "") = true →
      (∀ k, k < urls.length → k ≠ j → conn (urls.getD k "") = false) →
      ∃ e, (Sqlax.getNewSession conn s0).1 = .ok e ∧
        e.url = urls.getD j "") := by
  constructor
  · intro urls t conn j s0 hinit hj hcj hco els
    obtain ⟨rfl, -⟩ := Sqla.init_ok urls t s0 hinit
    have hinv : Sqla.OneInv urls t
        { urls := urls, timeoutSeconds := t,
          engines := List.replicate urls.length none,
          currentEngineIndex := 0, sessionFactory := none,
          reflectedTables := none, nextId := 0, probeLog := [] } :=
      ⟨rfl, rfl, by simp, fun p => Sqla.getD_replicate_none _ _,
       by show 0 < urls.length; omega, rfl⟩
    exact Sqla.eventual_success conn urls t j hj hcj hco _ els _ hinv rfl
  · intro urls conn j s0 hinit hj hcj hco
    obtain ⟨rfl, -⟩ := Sqlax.init_ok_x urls s0 hinit
    have hmem : urls.getD j "" ∈ urls := by
      rw [List.getD_eq_getElem _ _ hj]
      exact List.getElem_mem hj
    rcases hr : Sqlax.getNewSession conn
      { urls := urls, engines := [], currentEngineIndexUrl := "",
        sessionFactory := none, reflectedTables := none,
        nextId := 0, probeLog := [] } with ⟨r, s'⟩
    obtain ⟨e, ho, hc, hm⟩ := Sqlax.getNewSession_one_x conn _ r s' hr rfl
      (fun u => rfl) ⟨urls.getD j "", hmem, hcj⟩
    refine ⟨e, ho, ?_⟩
    obtain ⟨k, hk, hke⟩ := List.getElem_of_mem hm
    by_cases hkj : k = j
    · subst hkj
      rw [← hke, List.getD_eq_getElem _ _ hk]
    · exfalso
      have hfalse := hco k hk hkj
      rw [List.getD_eq_getElem _ _ hk, hke] at hfalse
      rw [hfalse] at hc
      exact Bool.noConfusion hc

/-- Witness for C3: with URL list `[bad, ok]` where only `ok` (position 1)
is connectable, the first `get_new_session` of the `sqlax` manager
returns a session bound to an engine for `ok`. -/
theorem claim_C3_witness :
    ∃ e, (Sqlax.getNewSession (fun u => u == "ok")
      { urls := ["bad", "ok"], engines := [], currentEngineIndexUrl := "",
        sessionFactory := none, reflectedTables := none,
        nextId := 0, probeLog := [] }).1 = .ok e ∧
      e.url = (["bad", "ok"] : List Url).getD 1 "" :=
  claim_C3.2 ["bad", "ok"] (fun u => u == "ok") 1
    { urls := ["bad", "ok"], engines := [], currentEngineIndexUrl := "",
      sessionFactory := none, reflectedTables := none,
      nextId := 0, probeLog := [] }
    (by rfl) (by decide) (by decide)
    (by
      intro k hk hkj
      rcases k with _ | (_ | k)
      · decide
      · exact absurd rfl hkj
      · have h2 : (["bad", "ok"] : List Url).length = 2 := rfl
        rw [h2] at hk
        omega)
